import Mathlib

/-!
Verification development for the Cargovera shipping back-office: a shallow
embedding of its ledger and reservation engine (money utilities, the
balance/transaction ledger, the label purchase and cancel workflows, the
payment webhook handlers, and the inventory reservation and fulfillment
state machine), together with theorems settling the specified properties.

Machine decimals are embedded as exact rationals; balances and amounts are
carried in integer cents exactly as the backing columns store them
(`balance_cents`, `amount_cents`, ...).  Each service operation is embedded
as a function from the committed database state to `Except e` of the new
committed state: the services commit once at the end of their mutation
sequence and roll back on error, so an `error` result leaves the committed
state unchanged.
-/

namespace Cargovera

/-- Rounding of a nonnegative rational to the nearest integer with halves
rounded up, computed by natural-number division; this is Python decimal
`ROUND_HALF_UP` restricted to nonnegative values. -/
def roundHalfUpNonneg (q : ℚ) : ℤ :=
  ((2 * q.num.natAbs + q.den) / (2 * q.den) : ℕ)

/-- Rounding to the nearest integer with halves rounded away from zero,
matching Python decimal `ROUND_HALF_UP` on signed values. -/
def roundHalfUp (q : ℚ) : ℤ :=
  if 0 ≤ q then roundHalfUpNonneg q else - roundHalfUpNonneg (-q)

/-- Value of a decimal quantity quantized to two fraction digits, expressed
in integer cents; this models `Decimal.quantize(Decimal("0.01"),
rounding=ROUND_HALF_UP)` followed by reading the result in cents. -/
def quantize2 (q : ℚ) : ℤ := roundHalfUp (q * 100)

/-- Money value from `app/utils/money.py`: a Decimal amount quantized to two
fraction digits, represented exactly by its integer number of cents
(`self.amount == cents / 100`).  Equality is equality of the underlying
minor-unit integer. -/
structure Money where
  cents : ℤ
  deriving DecidableEq, Repr

/-- Money construction (`Money.__init__`): quantize the given decimal amount
to two fraction digits with `ROUND_HALF_UP`. -/
def Money.ofAmount (amount : ℚ) : Money := ⟨quantize2 amount⟩

/-- Money.from_cents: `Money(Decimal(cents) / Decimal("100"))`. -/
def Money.from_cents (c : ℤ) : Money := Money.ofAmount ((c : ℚ) / 100)

/-- Money.to_cents: multiply the stored amount by 100 and round to an
integer with `ROUND_HALF_UP`. -/
def Money.to_cents (m : Money) : ℤ := roundHalfUp ((m.cents : ℚ) / 100 * 100)

/-- Transaction type enum from `app/models/transaction.py`. -/
inductive TransactionType where
  | deposit
  | usage
  | refund
  | adjustment
  deriving DecidableEq, Repr

/-- Immutable ledger row (`app/models/transaction.py`): the integer cents
columns `amount_cents` and `new_balance_cents` plus the transaction type. -/
structure Transaction where
  amount_cents : ℤ
  new_balance_cents : ℤ
  trans_type : TransactionType
  deriving DecidableEq, Repr

/-- Committed monetary state of one user: the `balance_cents` column plus
that user's transactions in creation order, oldest first. -/
structure UserLedger where
  balance_cents : ℤ
  transactions : List Transaction
  deriving DecidableEq, Repr

/-- Label status enum from `app/models/label.py`. -/
inductive LabelStatus where
  | new
  | shipped
  | cancelled
  deriving DecidableEq, Repr

/-- Label row as the purchase workflow creates it: `cost_estimate_cents` and
status. -/
structure LabelRow where
  cost_estimate_cents : ℤ
  status : LabelStatus
  deriving DecidableEq, Repr

/-- Committed state touched by a buy-label call: the buyer's ledger and the
buyer's label rows. -/
structure BuyState where
  user : UserLedger
  labels : List LabelRow
  deriving DecidableEq, Repr

/-- Errors of the label purchase workflow. -/
inductive LabelError where
  | rateNotAvailable (service_type : String)
  | insufficientBalance (balance : ℚ) (required : ℚ)
  | negativeAmount (amount : ℚ)
  deriving DecidableEq, Repr

/-- LabelService._apply_multiplier_to_rates: raises NegativeAmount on a
negative input and otherwise returns `init_value * multiplier` quantized to
two fraction digits with `ROUND_HALF_UP`; the two-decimal result is
represented by its integer number of cents. -/
def apply_multiplier_to_rates (init_value multiplier : ℚ) :
    Except LabelError ℤ :=
  if init_value < 0 then .error (.negativeAmount init_value)
  else .ok (quantize2 (init_value * multiplier))

/-- Per-piece cost loop of the buy-label functions: apply the multiplier to
each returned piece's base rate in order, propagating the first error. -/
def compute_costs (multiplier : ℚ) : List ℚ → Except LabelError (List ℤ)
  | [] => .ok []
  | b :: rest =>
    match apply_multiplier_to_rates b multiplier with
    | .error e => .error e
    | .ok c =>
      match compute_costs multiplier rest with
      | .error e => .error e
      | .ok cs => .ok (c :: cs)

/-- Debit loop of _buy_fedex_label / _buy_usps_label: for each created label
subtract its cost from the locked user's balance and append a usage
transaction whose amount is the (positive) cost and whose new_balance is the
balance after the deduction; the label rows are created with status `new`.
All of it is committed at once. -/
def buy_commit (st : BuyState) (costs : List ℤ) : BuyState :=
  costs.foldl
    (fun acc c =>
      let b := acc.user.balance_cents - c
      { user := ⟨b, acc.user.transactions ++ [⟨c, b, .usage⟩]⟩,
        labels := acc.labels ++ [⟨c, .new⟩] })
    st

/-- Outcome of a buy-label call: the committed-state result together with
whether the carrier purchase call was reached; in program order the purchase
happens only after the balance check passes. -/
structure BuyOutcome where
  result : Except LabelError BuyState
  carrier_purchase_attempted : Bool
  deriving Repr

/-- Monetary core of LabelService._buy_fedex_label from the rate lookup
onward.  `rates` are the carrier quotes as (serviceType,
totalNetFedExCharge) pairs and `pieces` the per-piece baseRateAmount values
of the carrier purchase response.  The quotes are filtered by the requested
service type, the user's multiplier is applied, and the balance is checked
against the estimated rate before the carrier purchase -- on failure raising
InsufficientBalance(user.balance, filtered_rates[0]) carrying the raw first
matching quote; on success the ledger is debited once per returned label
piece in a single commit. -/
def buy_fedex_label (service_type : String) (rates : List (String × ℚ))
    (pieces : List ℚ) (multiplier : ℚ) (st : BuyState) : BuyOutcome :=
  match (rates.filter (fun r => r.1 == service_type)).map Prod.snd with
  | [] => ⟨.error (.rateNotAvailable service_type), false⟩
  | quote :: _ =>
    match apply_multiplier_to_rates quote multiplier with
    | .error e => ⟨.error e, false⟩
    | .ok estimated_rate =>
      if st.user.balance_cents < estimated_rate then
        ⟨.error (.insufficientBalance ((st.user.balance_cents : ℚ) / 100) quote),
         false⟩
      else
        match compute_costs multiplier pieces with
        | .error e => ⟨.error e, true⟩
        | .ok costs => ⟨.ok (buy_commit st costs), true⟩

/-- Monetary core of LabelService._buy_usps_label, of the same shape as the
FedEx path: `rates` are (mailClass, price) pairs whose first match supplies
base_price, the balance check compares against the multiplier-applied
estimated price and on failure raises InsufficientBalance(user.balance,
base_price) carrying the raw base price; each returned label piece is
debited at its multiplier-applied piece price in one commit. -/
def buy_usps_label (service_type : String) (rates : List (String × ℚ))
    (piece_prices : List ℚ) (multiplier : ℚ) (st : BuyState) : BuyOutcome :=
  match (rates.filter (fun r => r.1 == service_type)).map Prod.snd with
  | [] => ⟨.error (.rateNotAvailable service_type), false⟩
  | base_price :: _ =>
    match apply_multiplier_to_rates base_price multiplier with
    | .error e => ⟨.error e, false⟩
    | .ok estimated_price =>
      if st.user.balance_cents < estimated_price then
        ⟨.error (.insufficientBalance ((st.user.balance_cents : ℚ) / 100)
            base_price),
         false⟩
      else
        match compute_costs multiplier piece_prices with
        | .error e => ⟨.error e, true⟩
        | .ok costs => ⟨.ok (buy_commit st costs), true⟩

/-- Label row as the cancel workflow sees it: tracking number, status and
`cost_estimate_cents`. -/
structure CancelLabelRow where
  tracking_number : Nat
  status : LabelStatus
  cost_estimate_cents : ℤ
  deriving DecidableEq, Repr

/-- Committed state touched by a cancel-label call. -/
structure CancelState where
  labels : List CancelLabelRow
  user : UserLedger
  deriving DecidableEq, Repr

/-- Errors of the label cancel workflow. -/
inductive CancelError where
  | externalService
  | notFound
  | alreadyCancelled
  deriving DecidableEq, Repr

/-- Replace the first label with the given tracking number by its cancelled
version; the ORM mutates the single fetched row. -/
def cancelFirst : List CancelLabelRow → Nat → List CancelLabelRow
  | [], _ => []
  | l :: ls, t =>
    if l.tracking_number = t then { l with status := .cancelled } :: ls
    else l :: cancelFirst ls t

/-- LabelService._cancel_fedex_label / _cancel_usps_label: after the carrier
cancel call succeeds, lock the label row by tracking number, fail NotFound
if absent and AlreadyCancelled if its status is already cancelled; otherwise
set the status to cancelled, credit the user's balance by cost_estimate and
append a refund transaction, all committed together.  Error results commit
nothing. -/
def cancel_label (carrier_ok : Bool) (tracking : Nat) (s : CancelState) :
    Except CancelError CancelState :=
  if carrier_ok = false then .error .externalService
  else
    match s.labels.find? (fun l => l.tracking_number == tracking) with
    | none => .error .notFound
    | some label =>
      if label.status = .cancelled then .error .alreadyCancelled
      else
        let b := s.user.balance_cents + label.cost_estimate_cents
        .ok { labels := cancelFirst s.labels tracking,
              user := ⟨b, s.user.transactions ++
                  [⟨label.cost_estimate_cents, b, .refund⟩]⟩ }

/-- Payment status enum from `app/models/payment.py`. -/
inductive PaymentStatus where
  | initiate
  | success
  | failure
  deriving DecidableEq, Repr

/-- Payment row: status plus `amount_cents`. -/
structure PaymentRow where
  status : PaymentStatus
  amount_cents : ℤ
  deriving DecidableEq, Repr

/-- Committed state touched by a payment webhook: the payment row and the
paying user's ledger. -/
structure PaymentCtx where
  payment : PaymentRow
  user : UserLedger
  deriving DecidableEq, Repr

/-- PaymentService._handle_successful_payment on an existing payment: return
with no change if the payment status is already success (the
duplicate-delivery guard); otherwise credit the user's balance by the
payment amount, append a deposit transaction snapshotting the new balance,
and mark the payment success, all in one commit. -/
def handle_successful_payment (s : PaymentCtx) : PaymentCtx :=
  if s.payment.status = .success then s
  else
    let b := s.user.balance_cents + s.payment.amount_cents
    { payment := { s.payment with status := .success },
      user := ⟨b, s.user.transactions ++
          [⟨s.payment.amount_cents, b, .deposit⟩]⟩ }

/-- PaymentService._handle_failed_payment on an existing payment: return
with no change if the status is already failure; otherwise only mark the
payment failure -- the balance and the transaction log are untouched. -/
def handle_failed_payment (s : PaymentCtx) : PaymentCtx :=
  if s.payment.status = .failure then s
  else { s with payment := { s.payment with status := .failure } }

/-- AdminService.update_balance: lock the user row, add the (arbitrary
decimal) amount to the balance through the Money setter -- quantizing the
sum to cents with `ROUND_HALF_UP` -- and append an adjustment transaction
whose amount is the quantized amount and whose new_balance snapshots the
updated balance.  There is no check that the resulting balance is
nonnegative. -/
def admin_update_balance (amount : ℚ) (u : UserLedger) : UserLedger :=
  let b := quantize2 ((u.balance_cents : ℚ) / 100 + amount)
  ⟨b, u.transactions ++ [⟨quantize2 amount, b, .adjustment⟩]⟩

/-- Committed state after an operation: an error result commits nothing and
leaves the prior committed state in place. -/
def committed {ε σ : Type} (s : σ) : Except ε σ → σ
  | .ok s2 => s2
  | .error _ => s

/-- Signed contribution of a transaction to the balance as claim C1 states
it, following the spec's words: the stored amount itself. -/
def specAmount (t : Transaction) : ℤ := t.amount_cents

/-- Actual signed balance delta of a transaction as the services apply it:
usage rows record the debited magnitude as a positive amount while the
balance decreases; all other types are applied as stored. -/
def signedAmount (t : Transaction) : ℤ :=
  match t.trans_type with
  | .usage => - t.amount_cents
  | _ => t.amount_cents

/-- Running balance after applying a list of transactions with the given
delta function, starting from `b`. -/
def runBal (delta : Transaction → ℤ) (b : ℤ) (ts : List Transaction) : ℤ :=
  ts.foldl (fun a t => a + delta t) b

/-- Chain condition: each transaction's new_balance equals the previous
new_balance (the opening balance `b` for the first) plus its delta. -/
def chainOk (delta : Transaction → ℤ) : ℤ → List Transaction → Bool
  | _, [] => true
  | b, t :: ts =>
    (t.new_balance_cents == b + delta t) && chainOk delta t.new_balance_cents ts

/-- Ledger consistency with respect to a delta function: the transactions
chain from a zero opening balance and the mutable balance column equals the
running sum of all deltas. -/
def ledgerMatches (delta : Transaction → ℤ) (u : UserLedger) : Bool :=
  chainOk delta 0 u.transactions &&
    (u.balance_cents == runBal delta 0 u.transactions)

/-- Claim C1's invariant exactly as the spec states it: the balance equals
the sum of the stored transaction amounts and each new_balance is the
previous new_balance plus the stored amount. -/
def specLedgerInvariant (u : UserLedger) : Bool := ledgerMatches specAmount u

/-- The ledger invariant the code actually maintains: usage amounts count
negatively, every other type as stored. -/
def ledgerOk (u : UserLedger) : Bool := ledgerMatches signedAmount u

/-- Find the value bound to a key in an id-keyed association list: the first
matching row, as `scalar_one_or_none` on a primary key returns it. -/
def lookupA {α : Type} (k : Nat) : List (Nat × α) → Option α
  | [] => none
  | (k2, v) :: rest => if k2 = k then some v else lookupA k rest

/-- Replace every row carrying the given key by the new value; keys are
unique in the committed stores, so this is the single-row ORM update. -/
def updateA {α : Type} (k : Nat) (v : α) : List (Nat × α) → List (Nat × α)
  | [] => []
  | (k2, v2) :: rest =>
    if k2 = k then (k2, v) :: updateA k v rest
    else (k2, v2) :: updateA k v rest

/-- Remove every row carrying the given key (DELETE by primary key). -/
def removeA {α : Type} (k : Nat) : List (Nat × α) → List (Nat × α)
  | [] => []
  | (k2, v2) :: rest =>
    if k2 = k then removeA k rest else (k2, v2) :: removeA k rest

/-- Inventory status enum from `app/models/inventory.py`. -/
inductive InventoryStatus where
  | active
  | inactive
  | soft_deleted
  deriving DecidableEq, Repr

/-- Inventory row: the (product, owner, holder) tuple plus quantities and
status. -/
structure InventoryRow where
  product_id : Nat
  owner_id : Nat
  holder_id : Nat
  available_qty : ℤ
  reserved_qty : ℤ
  status : InventoryStatus
  deriving DecidableEq, Repr

/-- Inventory transaction type enum. -/
inductive InvTxnType where
  | credit
  | debit
  deriving DecidableEq, Repr

/-- Inventory transaction source enum. -/
inductive InvTxnSource where
  | creation
  | outbound
  | transfer
  | adjustment
  | deletion
  deriving DecidableEq, Repr

/-- Immutable inventory audit row. -/
structure InventoryTxn where
  inventory_id : Nat
  txn_type : InvTxnType
  quantity : ℤ
  source : InvTxnSource
  source_ref_id : Option Nat
  deriving DecidableEq, Repr

/-- Fulfillment item row: inventory reference, quantity, and referenced
label ids (`label_urls`). -/
structure ItemRow where
  inventory_id : Nat
  quantity : ℤ
  label_urls : List Nat
  deriving DecidableEq, Repr

/-- Fulfillment request status enum. -/
inductive RequestStatus where
  | pending
  | fulfilled
  | cancelled
  deriving DecidableEq, Repr

/-- Fulfillment request row, owning its items. -/
structure RequestRow where
  owner_id : Nat
  holder_id : Nat
  status : RequestStatus
  items : List ItemRow
  deriving DecidableEq, Repr

/-- Committed database state touched by the inventory and fulfillment
services. -/
structure Store where
  requests : List (Nat × RequestRow)
  inventories : List (Nat × InventoryRow)
  labels : List (Nat × LabelStatus)
  inv_txns : List InventoryTxn
  deriving DecidableEq, Repr

/-- Errors of the inventory and fulfillment services. -/
inductive FulfillError where
  | notFound
  | badStatus
  | forbidden
  | noItems
  | inconsistentParties
  | inactiveInventory
  | invalidInput
  | conflict
  | persistence
  | inventoryNotFound (inventory_id : Nat)
  | insufficientQty (inventory_id : Nat)
  | reservedMismatch (inventory_id : Nat)
  | notEnough (inventory_id : Nat)
  | labelNotFound (label_id : Nat)
  deriving DecidableEq, Repr

/-- Mark every label referenced by one item's label_urls shipped, failing
NotFound on the first missing label (step 3 of fulfill_request's item
loop). -/
def shipLabels : List Nat → List (Nat × LabelStatus) →
    Except FulfillError (List (Nat × LabelStatus))
  | [], labels => .ok labels
  | lid :: rest, labels =>
    match lookupA lid labels with
    | none => .error (.labelNotFound lid)
    | some _ => shipLabels rest (updateA lid .shipped labels)

/-- One iteration of fulfill_request's item loop: lock the item's inventory,
fail if it is missing, check reserved then available quantity against the
item quantity, decrement both (deactivating the inventory when available
reaches zero), append the outbound debit InventoryTransaction, and ship the
item's labels. -/
def fulfillItem (request_id : Nat) (item : ItemRow) (s : Store) :
    Except FulfillError Store :=
  match lookupA item.inventory_id s.inventories with
  | none => .error (.inventoryNotFound item.inventory_id)
  | some inv =>
    if inv.reserved_qty < item.quantity then
      .error (.reservedMismatch item.inventory_id)
    else if inv.available_qty < item.quantity then
      .error (.notEnough item.inventory_id)
    else
      let a := inv.available_qty - item.quantity
      let inv2 : InventoryRow :=
        { inv with
          available_qty := a,
          reserved_qty := inv.reserved_qty - item.quantity,
          status := if a = 0 then .inactive else inv.status }
      match shipLabels item.label_urls s.labels with
      | .error e => .error e
      | .ok labels2 =>
        .ok { s with
              inventories := updateA item.inventory_id inv2 s.inventories,
              labels := labels2,
              inv_txns := s.inv_txns ++
                [⟨item.inventory_id, .debit, item.quantity, .outbound,
                  some request_id⟩] }

/-- Item loop of fulfill_request, threading the uncommitted session state;
the first error aborts the loop. -/
def itemsLoop (request_id : Nat) : List ItemRow → Store →
    Except FulfillError Store
  | [], s => .ok s
  | it :: rest, s =>
    match fulfillItem request_id it s with
    | .error e => .error e
    | .ok s2 => itemsLoop request_id rest s2

/-- FulfillmentService.fulfill_request: load the request with its items,
fail NotFound if absent, fail if not pending or if the caller is not the
holder; then run the item loop and finally mark the request fulfilled.  The
whole mutation sequence is one transaction committed at the end, so an error
anywhere commits nothing. -/
def fulfill_request (request_id user_id : Nat) (s : Store) :
    Except FulfillError Store :=
  match lookupA request_id s.requests with
  | none => .error .notFound
  | some req =>
    if req.status ≠ .pending then .error .badStatus
    else if req.holder_id ≠ user_id then .error .forbidden
    else
      match itemsLoop request_id req.items s with
      | .error e => .error e
      | .ok s2 =>
        .ok { s2 with
              requests :=
                updateA request_id { req with status := .fulfilled }
                  s2.requests }

/-- Item of a create-fulfillment-request payload; the pydantic schema
constrains quantity to be strictly positive. -/
structure CreateItem where
  inventory_id : Nat
  quantity : ℤ
  label_urls : List Nat
  deriving DecidableEq, Repr

/-- Reservation loop of create_fulfillment_request: for each item, check
`available_qty - reserved_qty >= quantity` against the session state and
increment reserved_qty; the first failing item aborts the loop before
anything is committed. -/
def reserveLoop : List CreateItem → List (Nat × InventoryRow) →
    Except FulfillError (List (Nat × InventoryRow))
  | [], invs => .ok invs
  | it :: rest, invs =>
    match lookupA it.inventory_id invs with
    | none => .error (.inventoryNotFound it.inventory_id)
    | some inv =>
      if inv.available_qty - inv.reserved_qty < it.quantity then
        .error (.insufficientQty it.inventory_id)
      else
        reserveLoop rest
          (updateA it.inventory_id
            { inv with reserved_qty := inv.reserved_qty + it.quantity } invs)

/-- Size of the fetched inventories dict: the number of distinct requested
inventory ids that exist in the store. -/
def foundCount (ids : List Nat) (invs : List (Nat × InventoryRow)) : Nat :=
  (ids.dedup.filter (fun i => (lookupA i invs).isSome)).length

/-- The inventory rows fetched for the given ids, keyed by id. -/
def fetchedRows (ids : List Nat) (invs : List (Nat × InventoryRow)) :
    List (Nat × InventoryRow) :=
  ids.filterMap (fun i => (lookupA i invs).map (fun v => (i, v)))

/-- FulfillmentService.create_fulfillment_request: reject an empty item
list; fetch all referenced inventories and fail NotFound unless the fetched
dict is as large as the id list (every id exists, no duplicates); require a
single common holder and a single common owner equal to the caller; require
every inventory active; reserve quantity on every item via the reservation
loop; then persist the pending request with its items and commit.
`persist_ok` stands for the final persistence step: when it fails the whole
transaction rolls back, committing nothing. -/
def create_fulfillment_request (user_id : Nat) (items : List CreateItem)
    (new_request_id : Nat) (persist_ok : Bool) (s : Store) :
    Except FulfillError Store :=
  if items.isEmpty then .error .noItems
  else
    let ids := items.map (fun it => it.inventory_id)
    if foundCount ids s.inventories ≠ ids.length then .error .notFound
    else
      let fetched := fetchedRows ids s.inventories
      if 1 < (fetched.map (fun e => e.2.holder_id)).dedup.length then
        .error .inconsistentParties
      else if 1 < (fetched.map (fun e => e.2.owner_id)).dedup.length then
        .error .inconsistentParties
      else if ¬ (∀ e ∈ fetched, e.2.owner_id = user_id) then .error .forbidden
      else if ¬ (∀ e ∈ fetched, e.2.status = InventoryStatus.active) then
        .error .inactiveInventory
      else
        match reserveLoop items s.inventories with
        | .error e => .error e
        | .ok invs2 =>
          if persist_ok then
            .ok { s with
                  inventories := invs2,
                  requests := s.requests ++
                    [(new_request_id,
                      ⟨user_id,
                        ((fetched.map (fun e => e.2.holder_id)).headD 0),
                        .pending,
                        items.map (fun it =>
                          ⟨it.inventory_id, it.quantity, it.label_urls⟩)⟩)] }
          else .error .persistence

/-- Release loop of delete_fulfillment_request: for each item, lock its
inventory if it still exists and decrement reserved_qty by the item
quantity floored at zero, silently skipping items whose inventory row is
gone. -/
def releaseLoop : List ItemRow → List (Nat × InventoryRow) →
    List (Nat × InventoryRow)
  | [], invs => invs
  | it :: rest, invs =>
    match lookupA it.inventory_id invs with
    | none => releaseLoop rest invs
    | some inv =>
      releaseLoop rest
        (updateA it.inventory_id
          { inv with reserved_qty := max (inv.reserved_qty - it.quantity) 0 }
          invs)

/-- FulfillmentService.delete_fulfillment_request: fail NotFound if the
request is absent, Forbidden unless the caller owns it, and reject unless it
is still pending; then release all item reservations (skipping missing
inventories) and delete the request together with its items, in one
commit. -/
def delete_fulfillment_request (request_id user_id : Nat) (s : Store) :
    Except FulfillError Store :=
  match lookupA request_id s.requests with
  | none => .error .notFound
  | some req =>
    if req.owner_id ≠ user_id then .error .forbidden
    else if req.status ≠ .pending then .error .badStatus
    else
      .ok { s with
            inventories := releaseLoop req.items s.inventories,
            requests := removeA request_id s.requests }

/-- First non-soft-deleted inventory row matching the (product, holder,
owner) tuple, as add_inventory's locking select fetches it. -/
def find_existing (product_id holder_id owner_id : Nat) :
    List (Nat × InventoryRow) → Option (Nat × InventoryRow)
  | [] => none
  | (k, v) :: rest =>
    if v.product_id = product_id ∧ v.holder_id = holder_id ∧
        v.owner_id = owner_id ∧ v.status ≠ InventoryStatus.soft_deleted then
      some (k, v)
    else find_existing product_id holder_id owner_id rest

/-- InventoryService.add_inventory: validate the zip code, require the
acting user to be holder or owner and the quantity positive; then either
increment the existing row's available_qty (re-activating it) or create a
new active row with reserved_qty zero, writing one credit
InventoryTransaction either way. -/
def add_inventory (product_id holder_id owner_id user_id : Nat) (qty : ℤ)
    (zip_ok : Bool) (new_id : Nat) (s : Store) : Except FulfillError Store :=
  if zip_ok = false then .error .invalidInput
  else if user_id ≠ holder_id ∧ user_id ≠ owner_id then .error .forbidden
  else if qty ≤ 0 then .error .invalidInput
  else
    match find_existing product_id holder_id owner_id s.inventories with
    | some (k, inv) =>
      .ok { s with
            inventories := updateA k
              { inv with
                available_qty := inv.available_qty + qty,
                status := .active } s.inventories,
            inv_txns := s.inv_txns ++ [⟨k, .credit, qty, .creation, none⟩] }
    | none =>
      .ok { s with
            inventories := s.inventories ++
              [(new_id, ⟨product_id, owner_id, holder_id, qty, 0, .active⟩)],
            inv_txns := s.inv_txns ++ [⟨new_id, .credit, qty, .creation, none⟩] }

/-- InventoryService.delete_inventory: fail NotFound if absent, Forbidden
unless the caller owns the row, Conflict if any quantity is reserved, and
reject if already soft-deleted; otherwise set status soft_deleted and write
a deletion debit InventoryTransaction for the whole available quantity. -/
def delete_inventory (inventory_id user_id : Nat) (s : Store) :
    Except FulfillError Store :=
  match lookupA inventory_id s.inventories with
  | none => .error .notFound
  | some inv =>
    if inv.owner_id ≠ user_id then .error .forbidden
    else if 0 < inv.reserved_qty then .error .conflict
    else if inv.status ≠ .active ∧ inv.status ≠ .inactive then
      .error .badStatus
    else
      .ok { s with
            inventories := updateA inventory_id
              { inv with status := .soft_deleted } s.inventories,
            inv_txns := s.inv_txns ++
              [⟨inventory_id, .debit, inv.available_qty, .deletion, none⟩] }

/-- Per-row inventory invariant of claim C6. -/
def invOk (inv : InventoryRow) : Prop :=
  0 ≤ inv.reserved_qty ∧ inv.reserved_qty ≤ inv.available_qty

/-- Store-wide inventory invariant: every inventory row satisfies invOk. -/
def storeInvOk (s : Store) : Prop :=
  ∀ e ∈ s.inventories, invOk e.2

/-- Well-formedness carried over from the pydantic validation
`quantity: conint(gt=0)`: every persisted fulfillment item quantity is
positive. -/
def storeItemsPos (s : Store) : Prop :=
  ∀ e ∈ s.requests, ∀ it ∈ e.2.items, 0 < it.quantity

instance (inv : InventoryRow) : Decidable (invOk inv) := by
  unfold invOk
  infer_instance

instance (s : Store) : Decidable (storeInvOk s) := by
  unfold storeInvOk
  infer_instance

instance (s : Store) : Decidable (storeItemsPos s) := by
  unfold storeItemsPos
  infer_instance

/-- Failure condition of claim C4 for one item of a fulfillment request in
a committed state: its inventory row is missing, or has insufficient
reserved or available quantity, or one of its referenced labels is
missing. -/
def badItem (s : Store) (it : ItemRow) : Prop :=
  lookupA it.inventory_id s.inventories = none ∨
  (∃ inv, lookupA it.inventory_id s.inventories = some inv ∧
    (inv.reserved_qty < it.quantity ∨ inv.available_qty < it.quantity)) ∨
  (∃ lid ∈ it.label_urls, lookupA lid s.labels = none)

theorem roundHalfUpNonneg_intCast (n : ℤ) :
    roundHalfUpNonneg (n : ℚ) = n.natAbs := by
  simp only [roundHalfUpNonneg, Rat.num_intCast, Rat.den_intCast]
  omega

theorem roundHalfUp_intCast (n : ℤ) : roundHalfUp (n : ℚ) = n := by
  unfold roundHalfUp
  by_cases h : (0 : ℚ) ≤ (n : ℚ)
  · rw [if_pos h, roundHalfUpNonneg_intCast]
    have hn : 0 ≤ n := by exact_mod_cast h
    omega
  · rw [if_neg h]
    have h2 : -(n : ℚ) = ((-n : ℤ) : ℚ) := by push_cast; ring
    rw [h2, roundHalfUpNonneg_intCast]
    have hn : n < 0 := by
      by_contra hc
      exact h (by exact_mod_cast not_lt.mp hc)
    omega

theorem roundHalfUp_nonneg {q : ℚ} (h : 0 ≤ q) : 0 ≤ roundHalfUp q := by
  unfold roundHalfUp
  rw [if_pos h]
  exact Int.natCast_nonneg _

theorem quantize2_intCast_div (n : ℤ) : quantize2 ((n : ℚ) / 100) = n := by
  unfold quantize2
  rw [div_mul_cancel₀ _ (by norm_num : (100 : ℚ) ≠ 0)]
  exact roundHalfUp_intCast n

theorem quantize2_nonneg {q : ℚ} (h : 0 ≤ q) : 0 ≤ quantize2 q :=
  roundHalfUp_nonneg (by positivity)

theorem Money.ofAmount_cents_div (n : ℤ) :
    Money.ofAmount ((n : ℚ) / 100) = ⟨n⟩ := by
  unfold Money.ofAmount
  rw [quantize2_intCast_div]

theorem Money.to_cents_eq (m : Money) : m.to_cents = m.cents := by
  unfold Money.to_cents
  rw [div_mul_cancel₀ _ (by norm_num : (100 : ℚ) ≠ 0)]
  exact roundHalfUp_intCast m.cents

/-- C9: money round-trips losslessly through minor units: for every amount
`x = n / 100` representable with exactly two decimal fraction digits,
`Money.from_cents((Money(x)).to_cents())` equals `Money(x)`, where Money
equality is equality of the underlying minor-unit integer. -/
theorem money_roundtrip_two_decimals (n : ℤ) :
    Money.from_cents ((Money.ofAmount ((n : ℚ) / 100)).to_cents) =
      Money.ofAmount ((n : ℚ) / 100) := by
  rw [Money.ofAmount_cents_div, Money.to_cents_eq]
  unfold Money.from_cents
  rw [Money.ofAmount_cents_div]

theorem runBal_append (delta : Transaction → ℤ) (b : ℤ)
    (ts : List Transaction) (t : Transaction) :
    runBal delta b (ts ++ [t]) = runBal delta b ts + delta t := by
  simp [runBal]

theorem chainOk_append (delta : Transaction → ℤ) (b : ℤ)
    (ts : List Transaction) (t : Transaction) (h : chainOk delta b ts = true)
    (h2 : t.new_balance_cents = runBal delta b ts + delta t) :
    chainOk delta b (ts ++ [t]) = true := by
  induction ts generalizing b with
  | nil =>
    have hb : t.new_balance_cents = b + delta t := by simpa [runBal] using h2
    simp [chainOk, hb]
  | cons hd tl ih =>
    rw [List.cons_append]
    simp only [chainOk, Bool.and_eq_true, beq_iff_eq] at h ⊢
    refine ⟨h.1, ih hd.new_balance_cents h.2 ?_⟩
    rw [h2]
    have hr : runBal delta b (hd :: tl) = runBal delta (b + delta hd) tl := rfl
    rw [hr, h.1]

theorem ledgerMatches_append (delta : Transaction → ℤ) (u : UserLedger)
    (t : Transaction) (h : ledgerMatches delta u = true)
    (ht : t.new_balance_cents = u.balance_cents + delta t) :
    ledgerMatches delta ⟨t.new_balance_cents, u.transactions ++ [t]⟩ = true := by
  simp only [ledgerMatches, Bool.and_eq_true, beq_iff_eq] at h ⊢
  obtain ⟨h1, h2⟩ := h
  constructor
  · exact chainOk_append delta 0 u.transactions t h1 (by rw [ht, h2])
  · rw [runBal_append, ← h2, ht]

theorem ledgerOk_buy_commit (st : BuyState) (costs : List ℤ)
    (h : ledgerOk st.user = true) :
    ledgerOk (buy_commit st costs).user = true := by
  induction costs generalizing st with
  | nil => simpa [buy_commit]
  | cons c cs ih =>
    have hstep : buy_commit st (c :: cs) =
        buy_commit ⟨⟨st.user.balance_cents - c,
            st.user.transactions ++ [⟨c, st.user.balance_cents - c, .usage⟩]⟩,
          st.labels ++ [⟨c, .new⟩]⟩ cs := rfl
    rw [hstep]
    apply ih
    have := ledgerMatches_append signedAmount st.user
      ⟨c, st.user.balance_cents - c, .usage⟩ h (by simp [signedAmount]; ring)
    simpa [ledgerOk] using this

theorem ledgerOk_handle_successful_payment (s : PaymentCtx)
    (h : ledgerOk s.user = true) :
    ledgerOk (handle_successful_payment s).user = true := by
  unfold handle_successful_payment
  by_cases hs : s.payment.status = .success
  · rw [if_pos hs]; exact h
  · rw [if_neg hs]
    have := ledgerMatches_append signedAmount s.user
      ⟨s.payment.amount_cents,
        s.user.balance_cents + s.payment.amount_cents, .deposit⟩
      h (by simp [signedAmount])
    simpa [ledgerOk] using this

theorem ledgerOk_handle_failed_payment (s : PaymentCtx)
    (h : ledgerOk s.user = true) :
    ledgerOk (handle_failed_payment s).user = true := by
  unfold handle_failed_payment
  by_cases hs : s.payment.status = .failure
  · rw [if_pos hs]; exact h
  · rw [if_neg hs]; exact h

theorem ledgerOk_admin_update_balance (u : UserLedger) (k : ℤ)
    (h : ledgerOk u = true) :
    ledgerOk (admin_update_balance ((k : ℚ) / 100) u) = true := by
  have hq : quantize2 ((u.balance_cents : ℚ) / 100 + (k : ℚ) / 100) =
      u.balance_cents + k := by
    rw [div_add_div_same]
    have hc : ((u.balance_cents : ℚ) + (k : ℚ)) =
        ((u.balance_cents + k : ℤ) : ℚ) := by push_cast; ring
    rw [hc, quantize2_intCast_div]
  have hq2 : quantize2 ((k : ℚ) / 100) = k := quantize2_intCast_div k
  have happ := ledgerMatches_append signedAmount u
    ⟨k, u.balance_cents + k, .adjustment⟩ h (by simp [signedAmount])
  unfold admin_update_balance
  simp only [hq, hq2]
  simpa [ledgerOk] using happ

theorem ledgerOk_cancel_label (ok2 : Bool) (t : Nat) (s s2 : CancelState)
    (h : cancel_label ok2 t s = .ok s2) (hl : ledgerOk s.user = true) :
    ledgerOk s2.user = true := by
  unfold cancel_label at h
  split at h
  · simp at h
  · split at h
    · simp at h
    · rename_i label hf
      split at h
      · simp at h
      · simp only [Except.ok.injEq] at h
        rw [← h]
        have := ledgerMatches_append signedAmount s.user
          ⟨label.cost_estimate_cents,
            s.user.balance_cents + label.cost_estimate_cents, .refund⟩
          hl (by simp [signedAmount])
        simpa [ledgerOk] using this

theorem ledgerOk_buy_fedex (stype : String) (rates : List (String × ℚ))
    (pieces : List ℚ) (mult : ℚ) (st st2 : BuyState)
    (h : (buy_fedex_label stype rates pieces mult st).result = .ok st2)
    (hl : ledgerOk st.user = true) : ledgerOk st2.user = true := by
  unfold buy_fedex_label at h
  split at h
  · simp at h
  · split at h
    · simp at h
    · split at h
      · simp at h
      · split at h
        · simp at h
        · rename_i costs hcc
          simp only [Except.ok.injEq] at h
          rw [← h]
          exact ledgerOk_buy_commit st costs hl

theorem ledgerOk_buy_usps (stype : String) (rates : List (String × ℚ))
    (pieces : List ℚ) (mult : ℚ) (st st2 : BuyState)
    (h : (buy_usps_label stype rates pieces mult st).result = .ok st2)
    (hl : ledgerOk st.user = true) : ledgerOk st2.user = true := by
  unfold buy_usps_label at h
  split at h
  · simp at h
  · split at h
    · simp at h
    · split at h
      · simp at h
      · split at h
        · simp at h
        · rename_i costs hcc
          simp only [Except.ok.injEq] at h
          rw [← h]
          exact ledgerOk_buy_commit st costs hl

theorem quantize2_eval (q : ℚ) (n : ℤ) (h : q * 100 = (n : ℚ)) :
    quantize2 q = n := by
  unfold quantize2
  rw [h, roundHalfUp_intCast]

theorem apply_multiplier_eval (init mult : ℚ) (n : ℤ) (h0 : 0 ≤ init)
    (h : init * mult * 100 = (n : ℚ)) :
    apply_multiplier_to_rates init mult = .ok n := by
  unfold apply_multiplier_to_rates
  rw [if_neg (not_lt.mpr h0), quantize2_eval (init * mult) n h]

theorem buy_fedex_example :
    buy_fedex_label "S" [("S", 8)] [8] 1
        ⟨⟨1000, [⟨1000, 1000, .deposit⟩]⟩, []⟩ =
      ⟨.ok ⟨⟨200, [⟨1000, 1000, .deposit⟩, ⟨800, 200, .usage⟩]⟩,
        [⟨800, .new⟩]⟩, true⟩ := by
  have hap : apply_multiplier_to_rates 8 1 = .ok 800 :=
    apply_multiplier_eval 8 1 800 (by norm_num) (by norm_num)
  unfold buy_fedex_label
  norm_num [hap, compute_costs, buy_commit]

/-- C1 (amended): every committed ledger operation preserves the running-sum
invariant in which each transaction's signed balance delta is its stored
amount for deposit, refund and adjustment rows but the negated stored amount
for usage rows (the buy-label debit stores the debited magnitude as a
positive amount while the balance decreases): each transaction's new_balance
equals the previous new_balance plus its signed delta and the user's balance
equals the signed running sum.  This holds after every buyLabel debit,
cancelLabel refund, deposit, and admin adjustment of a two-decimal
amount. -/
theorem ledger_running_sum_invariant :
    (∀ s : PaymentCtx, ledgerOk s.user = true →
      ledgerOk (handle_successful_payment s).user = true) ∧
    (∀ s : PaymentCtx, ledgerOk s.user = true →
      ledgerOk (handle_failed_payment s).user = true) ∧
    (∀ (u : UserLedger) (k : ℤ), ledgerOk u = true →
      ledgerOk (admin_update_balance ((k : ℚ) / 100) u) = true) ∧
    (∀ (ok2 : Bool) (t : Nat) (s s2 : CancelState),
      cancel_label ok2 t s = .ok s2 → ledgerOk s.user = true →
      ledgerOk s2.user = true) ∧
    (∀ (stype : String) (rates : List (String × ℚ)) (pieces : List ℚ)
      (mult : ℚ) (st st2 : BuyState),
      (buy_fedex_label stype rates pieces mult st).result = .ok st2 →
      ledgerOk st.user = true → ledgerOk st2.user = true) ∧
    (∀ (stype : String) (rates : List (String × ℚ)) (pieces : List ℚ)
      (mult : ℚ) (st st2 : BuyState),
      (buy_usps_label stype rates pieces mult st).result = .ok st2 →
      ledgerOk st.user = true → ledgerOk st2.user = true) :=
  ⟨ledgerOk_handle_successful_payment, ledgerOk_handle_failed_payment,
    ledgerOk_admin_update_balance, ledgerOk_cancel_label,
    ledgerOk_buy_fedex, ledgerOk_buy_usps⟩

theorem ledger_running_sum_invariant_witness :
    ledgerOk (handle_successful_payment ⟨⟨.initiate, 1000⟩, ⟨0, []⟩⟩).user
        = true ∧
    ledgerOk (handle_failed_payment ⟨⟨.initiate, 1000⟩, ⟨0, []⟩⟩).user
        = true ∧
    ledgerOk (admin_update_balance (((250 : ℤ) : ℚ) / 100) ⟨0, []⟩) = true ∧
    ledgerOk (⟨400, [⟨100, 100, .deposit⟩, ⟨300, 400, .refund⟩]⟩ : UserLedger)
        = true ∧
    ledgerOk (⟨200, [⟨1000, 1000, .deposit⟩, ⟨800, 200, .usage⟩]⟩ : UserLedger)
        = true :=
  ⟨ledger_running_sum_invariant.1 ⟨⟨.initiate, 1000⟩, ⟨0, []⟩⟩ (by decide),
    ledger_running_sum_invariant.2.1 ⟨⟨.initiate, 1000⟩, ⟨0, []⟩⟩ (by decide),
    ledger_running_sum_invariant.2.2.1 ⟨0, []⟩ 250 (by decide),
    ledger_running_sum_invariant.2.2.2.1 true 7
      ⟨[⟨7, .new, 300⟩], ⟨100, [⟨100, 100, .deposit⟩]⟩⟩
      ⟨[⟨7, .cancelled, 300⟩],
        ⟨400, [⟨100, 100, .deposit⟩, ⟨300, 400, .refund⟩]⟩⟩
      (by rfl) (by decide),
    ledger_running_sum_invariant.2.2.2.2.1 "S" [("S", 8)] [8] 1
      ⟨⟨1000, [⟨1000, 1000, .deposit⟩]⟩, []⟩
      ⟨⟨200, [⟨1000, 1000, .deposit⟩, ⟨800, 200, .usage⟩]⟩, [⟨800, .new⟩]⟩
      (by rw [buy_fedex_example]) (by decide)⟩

/-- C1 is false exactly as stated: running the FedEx buy-label debit from a
reachable ledger (one deposit of 1000 cents) commits a state whose balance
(200) differs from the sum of the stored transaction amounts (1800), because
the usage transaction records the debited magnitude as a positive amount and
its new_balance is the previous new_balance minus that amount. -/
theorem ledger_sum_claim_counterexample :
    (buy_fedex_label "S" [("S", 8)] [8] 1
        ⟨⟨1000, [⟨1000, 1000, .deposit⟩]⟩, []⟩).result =
      .ok ⟨⟨200, [⟨1000, 1000, .deposit⟩, ⟨800, 200, .usage⟩]⟩,
        [⟨800, .new⟩]⟩ ∧
    specLedgerInvariant ⟨1000, [⟨1000, 1000, .deposit⟩]⟩ = true ∧
    specLedgerInvariant
      ⟨200, [⟨1000, 1000, .deposit⟩, ⟨800, 200, .usage⟩]⟩ = false :=
  ⟨by rw [buy_fedex_example], by decide, by decide⟩

/-- C8: payment webhook handling is idempotent: delivering a success event
for a payment whose status is already success (or a failure event for one
already in failure) is a no-op -- the payment status, the user's balance and
the transaction log are all unchanged and no duplicate deposit transaction
is inserted -- and handling the same event twice equals handling it once. -/
theorem payment_webhook_idempotent :
    (∀ s : PaymentCtx, s.payment.status = .success →
      handle_successful_payment s = s) ∧
    (∀ s : PaymentCtx, s.payment.status = .failure →
      handle_failed_payment s = s) ∧
    (∀ s : PaymentCtx,
      handle_successful_payment (handle_successful_payment s) =
        handle_successful_payment s) ∧
    (∀ s : PaymentCtx,
      handle_failed_payment (handle_failed_payment s) =
        handle_failed_payment s) := by
  have hsucc : ∀ s : PaymentCtx, s.payment.status = .success →
      handle_successful_payment s = s := by
    intro s hs
    unfold handle_successful_payment
    rw [if_pos hs]
  have hfail : ∀ s : PaymentCtx, s.payment.status = .failure →
      handle_failed_payment s = s := by
    intro s hs
    unfold handle_failed_payment
    rw [if_pos hs]
  have hs_status : ∀ s : PaymentCtx,
      (handle_successful_payment s).payment.status = .success := by
    intro s
    unfold handle_successful_payment
    by_cases hs : s.payment.status = .success
    · rw [if_pos hs]; exact hs
    · rw [if_neg hs]
  have hf_status : ∀ s : PaymentCtx,
      (handle_failed_payment s).payment.status = .failure := by
    intro s
    unfold handle_failed_payment
    by_cases hs : s.payment.status = .failure
    · rw [if_pos hs]; exact hs
    · rw [if_neg hs]
  exact ⟨hsucc, hfail, fun s => hsucc _ (hs_status s),
    fun s => hfail _ (hf_status s)⟩

theorem payment_webhook_idempotent_witness :
    handle_successful_payment ⟨⟨.success, 500⟩, ⟨700, []⟩⟩ =
      ⟨⟨.success, 500⟩, ⟨700, []⟩⟩ ∧
    handle_failed_payment ⟨⟨.failure, 500⟩, ⟨700, []⟩⟩ =
      ⟨⟨.failure, 500⟩, ⟨700, []⟩⟩ ∧
    handle_successful_payment
        (handle_successful_payment ⟨⟨.initiate, 500⟩, ⟨0, []⟩⟩) =
      handle_successful_payment ⟨⟨.initiate, 500⟩, ⟨0, []⟩⟩ :=
  ⟨payment_webhook_idempotent.1 _ rfl, payment_webhook_idempotent.2.1 _ rfl,
    payment_webhook_idempotent.2.2.1 _⟩

theorem cancelFirst_find (t : Nat) (ls : List CancelLabelRow)
    (label : CancelLabelRow)
    (h : ls.find? (fun l => l.tracking_number == t) = some label) :
    (cancelFirst ls t).find? (fun l => l.tracking_number == t) =
      some { label with status := .cancelled } := by
  induction ls with
  | nil => simp [List.find?] at h
  | cons hd tl ih =>
    unfold cancelFirst
    by_cases hh : hd.tracking_number = t
    · rw [if_pos hh]
      rw [List.find?_cons_of_pos _ (by simpa using hh)] at h
      have hl : hd = label := by simpa using h
      subst hl
      exact List.find?_cons_of_pos _ (by simpa using hh)
    · rw [if_neg hh]
      rw [List.find?_cons_of_neg _ (by simpa using hh)] at h
      rw [List.find?_cons_of_neg _ (by simpa using hh)]
      exact ih h

/-- C7: cancelling the same label twice: after a successful cancel has set
the label's status to cancelled and credited the refund, a second cancel
call for the same tracking number (whose carrier call succeeds) fails with
the already-cancelled error and commits nothing: the user's balance is
unchanged and no second refund transaction is inserted. -/
theorem cancel_label_twice (t : Nat) (s s1 : CancelState)
    (h : cancel_label true t s = .ok s1) :
    cancel_label true t s1 = .error .alreadyCancelled ∧
      committed s1 (cancel_label true t s1) = s1 := by
  have hcan : cancel_label true t s1 = .error .alreadyCancelled := by
    unfold cancel_label at h
    split at h
    · simp at h
    · split at h
      · simp at h
      · rename_i label hf
        split at h
        · simp at h
        · simp only [Except.ok.injEq] at h
          subst h
          have hfind := cancelFirst_find t s.labels label hf
          unfold cancel_label
          rw [if_neg (by simp)]
          simp only [hfind]
          simp
  exact ⟨hcan, by rw [hcan]; rfl⟩

theorem cancel_label_twice_witness :
    cancel_label true 7
        ⟨[⟨7, .cancelled, 300⟩],
          ⟨400, [⟨100, 100, .deposit⟩, ⟨300, 400, .refund⟩]⟩⟩ =
      .error .alreadyCancelled ∧
    committed
        (⟨[⟨7, .cancelled, 300⟩],
          ⟨400, [⟨100, 100, .deposit⟩, ⟨300, 400, .refund⟩]⟩⟩ : CancelState)
        (cancel_label true 7
          ⟨[⟨7, .cancelled, 300⟩],
            ⟨400, [⟨100, 100, .deposit⟩, ⟨300, 400, .refund⟩]⟩⟩) =
      ⟨[⟨7, .cancelled, 300⟩],
        ⟨400, [⟨100, 100, .deposit⟩, ⟨300, 400, .refund⟩]⟩⟩ :=
  cancel_label_twice 7 ⟨[⟨7, .new, 300⟩], ⟨100, [⟨100, 100, .deposit⟩]⟩⟩ _
    (by rfl)

theorem compute_costs_ok (mult : ℚ) (pieces : List ℚ) (costs : List ℤ)
    (h : compute_costs mult pieces = .ok costs) :
    costs = pieces.map (fun b => quantize2 (b * mult)) := by
  induction pieces generalizing costs with
  | nil =>
    simp only [compute_costs, Except.ok.injEq] at h
    simp [← h]
  | cons b rest ih =>
    unfold compute_costs at h
    split at h
    · simp at h
    · rename_i c hc
      split at h
      · simp at h
      · rename_i cs hcs
        simp only [Except.ok.injEq] at h
        subst h
        unfold apply_multiplier_to_rates at hc
        split at hc
        · simp at hc
        · simp only [Except.ok.injEq] at hc
          subst hc
          simp [ih cs hcs]

theorem buy_commit_balance (st : BuyState) (costs : List ℤ) :
    (buy_commit st costs).user.balance_cents =
      st.user.balance_cents - costs.sum := by
  induction costs generalizing st with
  | nil => simp [buy_commit]
  | cons c cs ih =>
    have hstep : buy_commit st (c :: cs) =
        buy_commit ⟨⟨st.user.balance_cents - c,
            st.user.transactions ++ [⟨c, st.user.balance_cents - c, .usage⟩]⟩,
          st.labels ++ [⟨c, .new⟩]⟩ cs := rfl
    rw [hstep, ih]
    simp only [List.sum_cons]
    ring

theorem buy_fedex_ok_balance (stype : String) (rates : List (String × ℚ))
    (pieces : List ℚ) (mult : ℚ) (st st2 : BuyState) (quote : ℚ)
    (rest : List ℚ)
    (hfil : (rates.filter (fun r => r.1 == stype)).map Prod.snd = quote :: rest)
    (hsum : (pieces.map (fun b => quantize2 (b * mult))).sum ≤
      quantize2 (quote * mult))
    (h : (buy_fedex_label stype rates pieces mult st).result = .ok st2)
    (hb : 0 ≤ st.user.balance_cents) : 0 ≤ st2.user.balance_cents := by
  unfold buy_fedex_label at h
  split at h
  · simp at h
  · rename_i q tail heq
    rw [hfil] at heq
    injection heq with hq htail
    subst hq
    split at h
    · simp at h
    · rename_i est hest
      unfold apply_multiplier_to_rates at hest
      split at hest
      · simp at hest
      · simp only [Except.ok.injEq] at hest
        subst hest
        split at h
        · simp at h
        · rename_i hbal
          split at h
          · simp at h
          · rename_i costs hcosts
            simp only [Except.ok.injEq] at h
            subst h
            rw [buy_commit_balance]
            have hcc := compute_costs_ok mult pieces costs hcosts
            subst hcc
            omega

theorem buy_usps_ok_balance (stype : String) (rates : List (String × ℚ))
    (pieces : List ℚ) (mult : ℚ) (st st2 : BuyState) (base : ℚ)
    (rest : List ℚ)
    (hfil : (rates.filter (fun r => r.1 == stype)).map Prod.snd = base :: rest)
    (hsum : (pieces.map (fun b => quantize2 (b * mult))).sum ≤
      quantize2 (base * mult))
    (h : (buy_usps_label stype rates pieces mult st).result = .ok st2)
    (hb : 0 ≤ st.user.balance_cents) : 0 ≤ st2.user.balance_cents := by
  unfold buy_usps_label at h
  split at h
  · simp at h
  · rename_i q tail heq
    rw [hfil] at heq
    injection heq with hq htail
    subst hq
    split at h
    · simp at h
    · rename_i est hest
      unfold apply_multiplier_to_rates at hest
      split at hest
      · simp at hest
      · simp only [Except.ok.injEq] at hest
        subst hest
        split at h
        · simp at h
        · rename_i hbal
          split at h
          · simp at h
          · rename_i costs hcosts
            simp only [Except.ok.injEq] at h
            subst h
            rw [buy_commit_balance]
            have hcc := compute_costs_ok mult pieces costs hcosts
            subst hcc
            omega

theorem nonneg_handle_successful_payment (s : PaymentCtx)
    (hb : 0 ≤ s.user.balance_cents) (ha : 0 ≤ s.payment.amount_cents) :
    0 ≤ (handle_successful_payment s).user.balance_cents := by
  unfold handle_successful_payment
  by_cases hs : s.payment.status = .success
  · rw [if_pos hs]; exact hb
  · rw [if_neg hs]
    dsimp only
    omega

theorem nonneg_cancel_label (ok2 : Bool) (t : Nat) (s s2 : CancelState)
    (h : cancel_label ok2 t s = .ok s2) (hb : 0 ≤ s.user.balance_cents)
    (hc : ∀ l ∈ s.labels, 0 ≤ l.cost_estimate_cents) :
    0 ≤ s2.user.balance_cents := by
  unfold cancel_label at h
  split at h
  · simp at h
  · split at h
    · simp at h
    · rename_i label hf
      split at h
      · simp at h
      · simp only [Except.ok.injEq] at h
        subst h
        dsimp only
        have hcl := hc label (List.mem_of_find?_eq_some hf)
        omega

theorem nonneg_admin_update_balance (u : UserLedger) (a : ℚ)
    (hb : 0 ≤ u.balance_cents) (ha : 0 ≤ a) :
    0 ≤ (admin_update_balance a u).balance_cents := by
  unfold admin_update_balance
  dsimp only
  apply quantize2_nonneg
  have hbq : (0 : ℚ) ≤ (u.balance_cents : ℚ) := by exact_mod_cast hb
  exact add_nonneg (div_nonneg hbq (by norm_num)) ha

/-- C2 (amended): balance >= 0 is not an invariant of every ledger
operation.  It is preserved by the deposit credit (nonnegative payment
amount), by the cancel-label refund (nonnegative stored cost estimates), by
a nonnegative admin adjustment, and by the buyLabel debit whenever the
summed per-piece debited cost does not exceed the pre-checked estimated
charge -- the pre-check `user.balance < estimatedCharge` runs before the
carrier purchase and there is no database constraint.  The admin balance
adjustment, however, has no non-negativity check at all, so a sufficiently
negative adjustment commits a negative balance (see the counterexample). -/
theorem balance_nonneg_guards :
    (∀ s : PaymentCtx, 0 ≤ s.user.balance_cents →
      0 ≤ s.payment.amount_cents →
      0 ≤ (handle_successful_payment s).user.balance_cents) ∧
    (∀ (ok2 : Bool) (t : Nat) (s s2 : CancelState),
      cancel_label ok2 t s = .ok s2 → 0 ≤ s.user.balance_cents →
      (∀ l ∈ s.labels, 0 ≤ l.cost_estimate_cents) →
      0 ≤ s2.user.balance_cents) ∧
    (∀ (u : UserLedger) (a : ℚ), 0 ≤ u.balance_cents → 0 ≤ a →
      0 ≤ (admin_update_balance a u).balance_cents) ∧
    (∀ (stype : String) (rates : List (String × ℚ)) (pieces : List ℚ)
      (mult : ℚ) (st st2 : BuyState) (quote : ℚ) (rest : List ℚ),
      (rates.filter (fun r => r.1 == stype)).map Prod.snd = quote :: rest →
      (pieces.map (fun b => quantize2 (b * mult))).sum ≤
        quantize2 (quote * mult) →
      (buy_fedex_label stype rates pieces mult st).result = .ok st2 →
      0 ≤ st.user.balance_cents → 0 ≤ st2.user.balance_cents) ∧
    (∀ (stype : String) (rates : List (String × ℚ)) (pieces : List ℚ)
      (mult : ℚ) (st st2 : BuyState) (base : ℚ) (rest : List ℚ),
      (rates.filter (fun r => r.1 == stype)).map Prod.snd = base :: rest →
      (pieces.map (fun b => quantize2 (b * mult))).sum ≤
        quantize2 (base * mult) →
      (buy_usps_label stype rates pieces mult st).result = .ok st2 →
      0 ≤ st.user.balance_cents → 0 ≤ st2.user.balance_cents) :=
  ⟨nonneg_handle_successful_payment, nonneg_cancel_label,
    nonneg_admin_update_balance, buy_fedex_ok_balance, buy_usps_ok_balance⟩

theorem balance_nonneg_guards_witness :
    0 ≤ (handle_successful_payment ⟨⟨.initiate, 500⟩, ⟨0, []⟩⟩).user.balance_cents ∧
    0 ≤ (⟨[⟨7, .cancelled, 300⟩],
        ⟨400, [⟨100, 100, .deposit⟩, ⟨300, 400, .refund⟩]⟩⟩ :
          CancelState).user.balance_cents ∧
    0 ≤ (admin_update_balance 5 ⟨0, []⟩).balance_cents ∧
    0 ≤ (⟨⟨200, [⟨1000, 1000, .deposit⟩, ⟨800, 200, .usage⟩]⟩,
        [⟨800, .new⟩]⟩ : BuyState).user.balance_cents :=
  ⟨balance_nonneg_guards.1 ⟨⟨.initiate, 500⟩, ⟨0, []⟩⟩ (by decide) (by decide),
    balance_nonneg_guards.2.1 true 7
      ⟨[⟨7, .new, 300⟩], ⟨100, [⟨100, 100, .deposit⟩]⟩⟩ _ (by rfl) (by decide)
      (by decide),
    balance_nonneg_guards.2.2.1 ⟨0, []⟩ 5 (by decide) (by norm_num),
    balance_nonneg_guards.2.2.2.1 "S" [("S", 8)] [8] 1
      ⟨⟨1000, [⟨1000, 1000, .deposit⟩]⟩, []⟩ _ 8 [] (by simp)
      (by simp) (by rw [buy_fedex_example]) (by decide)⟩

theorem admin_update_balance_eval (u : UserLedger) (a : ℚ) (k m : ℤ)
    (h1 : quantize2 ((u.balance_cents : ℚ) / 100 + a) = m)
    (h2 : quantize2 a = k) :
    admin_update_balance a u =
      ⟨m, u.transactions ++ [⟨k, m, .adjustment⟩]⟩ := by
  unfold admin_update_balance
  rw [h1, h2]

/-- C2 is false exactly as stated: the admin balance adjustment performs no
non-negativity check, so adjusting a user with zero balance by -5.00
dollars commits the state with balance_cents = -500 < 0 together with its
adjustment transaction. -/
theorem balance_nonneg_claim_counterexample :
    admin_update_balance (-5) ⟨0, []⟩ =
      ⟨-500, [⟨-500, -500, .adjustment⟩]⟩ ∧
    (admin_update_balance (-5) ⟨0, []⟩).balance_cents < 0 := by
  have h2 : quantize2 (-5 : ℚ) = -500 := by
    have h3 : (-5 : ℚ) = ((-500 : ℤ) : ℚ) / 100 := by norm_num
    rw [h3, quantize2_intCast_div]
  have h1 : quantize2 ((((0 : ℤ) : ℚ)) / 100 + (-5)) = -500 := by
    have h4 : (((0 : ℤ) : ℚ)) / 100 + (-5 : ℚ) = (-5 : ℚ) := by norm_num
    rw [h4]
    exact h2
  have hmain := admin_update_balance_eval ⟨0, []⟩ (-5) (-500) (-500) h1 h2
  exact ⟨by simpa using hmain, by rw [hmain]; decide⟩

theorem buy_fedex_insufficient (stype : String) (rates : List (String × ℚ))
    (pieces : List ℚ) (mult : ℚ) (st : BuyState) (quote : ℚ) (rest : List ℚ)
    (hfil : (rates.filter (fun r => r.1 == stype)).map Prod.snd = quote :: rest)
    (hq : 0 ≤ quote)
    (hlt : st.user.balance_cents < quantize2 (quote * mult)) :
    buy_fedex_label stype rates pieces mult st =
      ⟨.error (.insufficientBalance ((st.user.balance_cents : ℚ) / 100) quote),
        false⟩ := by
  have happ : apply_multiplier_to_rates quote mult =
      .ok (quantize2 (quote * mult)) := by
    unfold apply_multiplier_to_rates
    rw [if_neg (not_lt.mpr hq)]
  unfold buy_fedex_label
  rw [hfil]
  simp only [happ]
  rw [if_pos hlt]

theorem buy_usps_insufficient (stype : String) (rates : List (String × ℚ))
    (pieces : List ℚ) (mult : ℚ) (st : BuyState) (base : ℚ) (rest : List ℚ)
    (hfil : (rates.filter (fun r => r.1 == stype)).map Prod.snd = base :: rest)
    (hq : 0 ≤ base)
    (hlt : st.user.balance_cents < quantize2 (base * mult)) :
    buy_usps_label stype rates pieces mult st =
      ⟨.error (.insufficientBalance ((st.user.balance_cents : ℚ) / 100) base),
        false⟩ := by
  have happ : apply_multiplier_to_rates base mult =
      .ok (quantize2 (base * mult)) := by
    unfold apply_multiplier_to_rates
    rw [if_neg (not_lt.mpr hq)]
  unfold buy_usps_label
  rw [hfil]
  simp only [happ]
  rw [if_pos hlt]

/-- C3 (amended): when the user's balance is below the multiplier-applied
estimated charge for the requested service type, buyLabel raises
InsufficientBalance before the carrier purchase call is attempted
(carrier_purchase_attempted = false), the carrier is not charged, no label
row is created and the balance and transaction history are unchanged; the
exception, however, carries the pair (balance, rawCarrierRate) -- the raw
pre-multiplier first matching quote (FedEx) or base price (USPS) -- not the
multiplier-applied estimated charge. -/
theorem insufficient_balance_precheck :
    (∀ (stype : String) (rates : List (String × ℚ)) (pieces : List ℚ)
      (mult : ℚ) (st : BuyState) (quote : ℚ) (rest : List ℚ),
      (rates.filter (fun r => r.1 == stype)).map Prod.snd = quote :: rest →
      0 ≤ quote → st.user.balance_cents < quantize2 (quote * mult) →
      buy_fedex_label stype rates pieces mult st =
        ⟨.error (.insufficientBalance
          ((st.user.balance_cents : ℚ) / 100) quote), false⟩ ∧
      committed st (buy_fedex_label stype rates pieces mult st).result = st) ∧
    (∀ (stype : String) (rates : List (String × ℚ)) (pieces : List ℚ)
      (mult : ℚ) (st : BuyState) (base : ℚ) (rest : List ℚ),
      (rates.filter (fun r => r.1 == stype)).map Prod.snd = base :: rest →
      0 ≤ base → st.user.balance_cents < quantize2 (base * mult) →
      buy_usps_label stype rates pieces mult st =
        ⟨.error (.insufficientBalance
          ((st.user.balance_cents : ℚ) / 100) base), false⟩ ∧
      committed st (buy_usps_label stype rates pieces mult st).result = st) := by
  constructor
  · intro stype rates pieces mult st quote rest hfil hq hlt
    have hmain := buy_fedex_insufficient stype rates pieces mult st quote rest
      hfil hq hlt
    exact ⟨hmain, by rw [hmain]; rfl⟩
  · intro stype rates pieces mult st base rest hfil hq hlt
    have hmain := buy_usps_insufficient stype rates pieces mult st base rest
      hfil hq hlt
    exact ⟨hmain, by rw [hmain]; rfl⟩

theorem insufficient_balance_precheck_witness :
    (buy_fedex_label "S" [("S", 10)] [] (3 / 2) ⟨⟨1200, []⟩, []⟩ =
      ⟨.error (.insufficientBalance (((1200 : ℤ) : ℚ) / 100) 10), false⟩ ∧
    committed (⟨⟨1200, []⟩, []⟩ : BuyState)
      (buy_fedex_label "S" [("S", 10)] [] (3 / 2) ⟨⟨1200, []⟩, []⟩).result =
      ⟨⟨1200, []⟩, []⟩) :=
  insufficient_balance_precheck.1 "S" [("S", 10)] [] (3 / 2)
    ⟨⟨1200, []⟩, []⟩ 10 [] (by simp) (by norm_num)
    (by
      have hev := quantize2_eval ((10 : ℚ) * (3 / 2)) 1500 (by norm_num)
      show (1200 : ℤ) < quantize2 ((10 : ℚ) * (3 / 2))
      rw [hev]
      norm_num)

/-- C3 is false in its exception payload: with balance 1200 cents,
multiplier 1.5 and a raw FedEx quote of 10.00 for the requested service,
the multiplier-applied estimated charge is 15.00 (1500 cents) so the
pre-check fails, but the raised InsufficientBalance carries (12, 10) -- the
raw quote -- rather than the estimated charge 15. -/
theorem insufficient_payload_counterexample :
    buy_fedex_label "S" [("S", 10)] [] (3 / 2) ⟨⟨1200, []⟩, []⟩ =
      ⟨.error (.insufficientBalance 12 10), false⟩ ∧
    apply_multiplier_to_rates 10 (3 / 2) = .ok 1500 ∧
    (10 : ℚ) ≠ ((1500 : ℤ) : ℚ) / 100 := by
  have happ : apply_multiplier_to_rates 10 (3 / 2) = .ok 1500 :=
    apply_multiplier_eval 10 (3 / 2) 1500 (by norm_num) (by norm_num)
  have hmain := buy_fedex_insufficient "S" [("S", 10)] [] (3 / 2)
    ⟨⟨1200, []⟩, []⟩ 10 [] (by simp) (by norm_num)
    (by
      have hev := quantize2_eval ((10 : ℚ) * (3 / 2)) 1500 (by norm_num)
      show (1200 : ℤ) < quantize2 ((10 : ℚ) * (3 / 2))
      rw [hev]
      norm_num)
  refine ⟨?_, happ, by norm_num⟩
  rw [hmain]
  norm_num

theorem lookupA_updateA_ne {α : Type} (k k2 : Nat) (v : α)
    (l : List (Nat × α)) (h : k ≠ k2) :
    lookupA k (updateA k2 v l) = lookupA k l := by
  induction l with
  | nil => rfl
  | cons hd tl ih =>
    obtain ⟨k3, v3⟩ := hd
    simp only [updateA]
    by_cases h3 : k3 = k2
    · rw [if_pos h3]
      simp only [lookupA]
      have hk : ¬ (k3 = k) := by omega
      rw [if_neg hk, if_neg hk]
      exact ih
    · rw [if_neg h3]
      simp only [lookupA]
      by_cases hk : k3 = k
      · rw [if_pos hk, if_pos hk]
      · rw [if_neg hk, if_neg hk]
        exact ih

theorem lookupA_updateA_self {α : Type} (k : Nat) (v : α)
    (l : List (Nat × α)) :
    lookupA k (updateA k v l) = (lookupA k l).map (fun _ => v) := by
  induction l with
  | nil => rfl
  | cons hd tl ih =>
    obtain ⟨k3, v3⟩ := hd
    simp only [updateA]
    by_cases h3 : k3 = k
    · rw [if_pos h3]
      simp only [lookupA]
      rw [if_pos h3, if_pos h3]
      rfl
    · rw [if_neg h3]
      simp only [lookupA]
      rw [if_neg h3, if_neg h3]
      exact ih

theorem lookupA_updateA_cases {α : Type} (k k2 : Nat) (v : α)
    (l : List (Nat × α)) (w : α)
    (h : lookupA k (updateA k2 v l) = some w) :
    w = v ∨ lookupA k l = some w := by
  by_cases hk : k = k2
  · subst hk
    rw [lookupA_updateA_self] at h
    cases hl : lookupA k l with
    | none => rw [hl] at h; simp at h
    | some u =>
      rw [hl] at h
      simp only [Option.map_some'] at h
      exact Or.inl (Option.some.inj h).symm
  · exact Or.inr (by rw [← lookupA_updateA_ne k k2 v l hk]; exact h)

theorem lookupA_none_updateA {α : Type} (k k2 : Nat) (v : α)
    (l : List (Nat × α)) (h : lookupA k l = none) :
    lookupA k (updateA k2 v l) = none := by
  by_cases hk : k = k2
  · subst hk
    rw [lookupA_updateA_self, h]
    rfl
  · rw [lookupA_updateA_ne _ _ _ _ hk]
    exact h

theorem lookupA_removeA_self {α : Type} (k : Nat) (l : List (Nat × α)) :
    lookupA k (removeA k l) = none := by
  induction l with
  | nil => rfl
  | cons hd tl ih =>
    obtain ⟨k3, v3⟩ := hd
    by_cases h3 : k3 = k
    · simp [removeA, h3, ih]
    · simp [removeA, h3, lookupA, ih]

theorem releaseLoop_none (items : List ItemRow)
    (invs : List (Nat × InventoryRow)) (k : Nat)
    (h : lookupA k invs = none) :
    lookupA k (releaseLoop items invs) = none := by
  induction items generalizing invs with
  | nil => exact h
  | cons it rest ih =>
    simp only [releaseLoop]
    cases hl : lookupA it.inventory_id invs with
    | none => exact ih invs h
    | some inv => exact ih _ (lookupA_none_updateA _ _ _ _ h)

theorem releaseLoop_ne (items : List ItemRow)
    (invs : List (Nat × InventoryRow)) (k : Nat)
    (hk : ∀ it ∈ items, it.inventory_id ≠ k) :
    lookupA k (releaseLoop items invs) = lookupA k invs := by
  induction items generalizing invs with
  | nil => rfl
  | cons it rest ih =>
    simp only [releaseLoop]
    cases hl : lookupA it.inventory_id invs with
    | none => exact ih invs (fun i hi => hk i (List.mem_cons_of_mem _ hi))
    | some inv =>
      rw [ih _ (fun i hi => hk i (List.mem_cons_of_mem _ hi))]
      exact lookupA_updateA_ne k it.inventory_id _ invs
        (fun he => hk it (List.mem_cons_self _ _) he.symm)

theorem releaseLoop_released (items : List ItemRow)
    (invs : List (Nat × InventoryRow))
    (hnd : (items.map (fun it => it.inventory_id)).Nodup) :
    ∀ it ∈ items, ∀ inv, lookupA it.inventory_id invs = some inv →
      lookupA it.inventory_id (releaseLoop items invs) =
        some { inv with
          reserved_qty := max (inv.reserved_qty - it.quantity) 0 } := by
  induction items generalizing invs with
  | nil => intro it h; simp at h
  | cons hd rest ih =>
    intro it hmem inv hinv
    simp only [List.map_cons, List.nodup_cons] at hnd
    obtain ⟨hhd, hnd2⟩ := hnd
    simp only [releaseLoop]
    rcases List.mem_cons.mp hmem with he | hm
    · subst he
      rw [hinv]
      rw [releaseLoop_ne rest _ it.inventory_id
        (fun i hi hei => hhd (hei ▸ List.mem_map_of_mem _ hi))]
      rw [lookupA_updateA_self, hinv]
      rfl
    · have hne : it.inventory_id ≠ hd.inventory_id := by
        intro he
        exact hhd (he ▸ List.mem_map_of_mem _ hm)
      cases hl : lookupA hd.inventory_id invs with
      | none => exact ih _ hnd2 it hm inv hinv
      | some inv2 =>
        apply ih _ hnd2 it hm inv
        rw [lookupA_updateA_ne _ _ _ _ hne]
        exact hinv

/-- C10: deleting a pending fulfillment request owned by the caller
succeeds even when some item's inventory row no longer exists: the missing
inventories are silently skipped (and stay absent), the reservations of the
inventories that do exist are released (reserved_qty decremented by the item
quantity floored at zero), and the request is deleted together with its
items. -/
theorem delete_request_skips_missing (rid uid : Nat) (s : Store)
    (req : RequestRow) (hreq : lookupA rid s.requests = some req)
    (howner : req.owner_id = uid) (hpending : req.status = .pending)
    (hmiss : ∃ it ∈ req.items, lookupA it.inventory_id s.inventories = none)
    (hnd : (req.items.map (fun it => it.inventory_id)).Nodup) :
    delete_fulfillment_request rid uid s =
      .ok ⟨removeA rid s.requests, releaseLoop req.items s.inventories,
        s.labels, s.inv_txns⟩ ∧
    lookupA rid (removeA rid s.requests) = none ∧
    (∀ it ∈ req.items, lookupA it.inventory_id s.inventories = none →
      lookupA it.inventory_id (releaseLoop req.items s.inventories) = none) ∧
    (∀ it ∈ req.items, ∀ inv,
      lookupA it.inventory_id s.inventories = some inv →
      lookupA it.inventory_id (releaseLoop req.items s.inventories) =
        some { inv with
          reserved_qty := max (inv.reserved_qty - it.quantity) 0 }) := by
  refine ⟨?_, lookupA_removeA_self rid s.requests,
    fun it _ h => releaseLoop_none req.items s.inventories _ h,
    releaseLoop_released req.items s.inventories hnd⟩
  unfold delete_fulfillment_request
  simp [hreq, howner, hpending]

theorem delete_request_skips_missing_witness :
    delete_fulfillment_request 1 10
        ⟨[(1, ⟨10, 20, .pending, [⟨5, 3, []⟩, ⟨6, 2, []⟩]⟩)],
          [(5, ⟨100, 10, 20, 8, 3, .active⟩)], [], []⟩ =
      .ok ⟨[], [(5, ⟨100, 10, 20, 8, 0, .active⟩)], [], []⟩ ∧
    lookupA 6 ([(5, (⟨100, 10, 20, 8, 0, .active⟩ : InventoryRow))]) = none := by
  have h := delete_request_skips_missing 1 10
    ⟨[(1, ⟨10, 20, .pending, [⟨5, 3, []⟩, ⟨6, 2, []⟩]⟩)],
      [(5, ⟨100, 10, 20, 8, 3, .active⟩)], [], []⟩
    ⟨10, 20, .pending, [⟨5, 3, []⟩, ⟨6, 2, []⟩]⟩
    (by decide) (by decide) (by decide)
    ⟨⟨6, 2, []⟩, by decide, by decide⟩ (by decide)
  refine ⟨?_, by decide⟩
  rw [h.1]
  rfl

theorem foundCount_eq (ids : List Nat) (invs : List (Nat × InventoryRow))
    (h : foundCount ids invs = ids.length) :
    ids.Nodup ∧ ∀ i ∈ ids, (lookupA i invs).isSome = true := by
  unfold foundCount at h
  have h1 : (ids.dedup.filter
      (fun i => (lookupA i invs).isSome)).length ≤ ids.dedup.length :=
    List.length_filter_le _ _
  have h2 : ids.dedup.length ≤ ids.length := (List.dedup_sublist ids).length_le
  have hfl : (ids.dedup.filter
      (fun i => (lookupA i invs).isSome)).length = ids.dedup.length := by omega
  have hdl : ids.dedup.length = ids.length := by omega
  have hded : ids.dedup = ids := (List.dedup_sublist ids).eq_of_length hdl
  have hfeq : ids.dedup.filter (fun i => (lookupA i invs).isSome) =
      ids.dedup := (List.filter_sublist _).eq_of_length hfl
  refine ⟨hded ▸ ids.nodup_dedup, fun i hi => ?_⟩
  have hmem : i ∈ ids.dedup.filter (fun i => (lookupA i invs).isSome) := by
    rw [hfeq, hded]
    exact hi
  exact (List.mem_filter.mp hmem).2

theorem reserveLoop_cons_none (it : CreateItem) (rest : List CreateItem)
    (invs : List (Nat × InventoryRow))
    (h : lookupA it.inventory_id invs = none) :
    reserveLoop (it :: rest) invs =
      .error (.inventoryNotFound it.inventory_id) := by
  simp only [reserveLoop, h]

theorem reserveLoop_cons_some (it : CreateItem) (rest : List CreateItem)
    (invs : List (Nat × InventoryRow)) (inv : InventoryRow)
    (h : lookupA it.inventory_id invs = some inv) :
    reserveLoop (it :: rest) invs =
      if inv.available_qty - inv.reserved_qty < it.quantity then
        .error (.insufficientQty it.inventory_id)
      else
        reserveLoop rest (updateA it.inventory_id
          { inv with reserved_qty := inv.reserved_qty + it.quantity } invs) := by
  simp only [reserveLoop, h]

theorem reserveLoop_insufficient (items : List CreateItem)
    (invs : List (Nat × InventoryRow))
    (hnd : (items.map (fun it => it.inventory_id)).Nodup)
    (hbad : ∃ it ∈ items, ∀ inv,
      lookupA it.inventory_id invs = some inv →
      inv.available_qty - inv.reserved_qty < it.quantity) :
    ∃ e, reserveLoop items invs = .error e := by
  induction items generalizing invs with
  | nil =>
    obtain ⟨it, hmem, _⟩ := hbad
    simp at hmem
  | cons hd rest ih =>
    obtain ⟨it, hmem, hb⟩ := hbad
    simp only [List.map_cons, List.nodup_cons] at hnd
    obtain ⟨hhd, hnd2⟩ := hnd
    rcases List.mem_cons.mp hmem with he | hm
    · subst he
      cases hl : lookupA it.inventory_id invs with
      | none => exact ⟨_, reserveLoop_cons_none it rest invs hl⟩
      | some inv =>
        rw [reserveLoop_cons_some it rest invs inv hl, if_pos (hb inv hl)]
        exact ⟨_, rfl⟩
    · cases hl : lookupA hd.inventory_id invs with
      | none => exact ⟨_, reserveLoop_cons_none hd rest invs hl⟩
      | some inv =>
        rw [reserveLoop_cons_some hd rest invs inv hl]
        by_cases hins : inv.available_qty - inv.reserved_qty < hd.quantity
        · rw [if_pos hins]
          exact ⟨_, rfl⟩
        · rw [if_neg hins]
          apply ih _ hnd2
          refine ⟨it, hm, fun inv2 hinv2 => hb inv2 ?_⟩
          rw [← hinv2]
          refine (lookupA_updateA_ne _ _ _ _ ?_).symm
          intro he
          exact hhd (he ▸ List.mem_map_of_mem _ hm)

/-- C5: creating a fulfillment request reserves quantity all-or-nothing:
any error (in particular a failed `available_qty - reserved_qty >=
quantity` check on any single item) commits nothing -- no inventory's
reserved_qty is observably increased; an item violating the precondition in
the committed state forces the whole create to fail; and with a failing
final persistence step the create always errors, rolling the whole request
back. -/
theorem create_request_all_or_nothing :
    (∀ (uid : Nat) (items : List CreateItem) (nrid : Nat) (pok : Bool)
      (s : Store) (e : FulfillError),
      create_fulfillment_request uid items nrid pok s = .error e →
      committed s (create_fulfillment_request uid items nrid pok s) = s) ∧
    (∀ (uid : Nat) (items : List CreateItem) (nrid : Nat) (pok : Bool)
      (s : Store),
      (∃ it ∈ items, ∀ inv,
        lookupA it.inventory_id s.inventories = some inv →
        inv.available_qty - inv.reserved_qty < it.quantity) →
      ∃ e, create_fulfillment_request uid items nrid pok s = .error e) ∧
    (∀ (uid : Nat) (items : List CreateItem) (nrid : Nat) (s : Store),
      ∃ e, create_fulfillment_request uid items nrid false s = .error e) := by
  refine ⟨?_, ?_, ?_⟩
  · intro uid items nrid pok s e h
    rw [h]
    rfl
  · intro uid items nrid pok s hbad
    unfold create_fulfillment_request
    by_cases h0 : items.isEmpty = true
    · rw [if_pos h0]
      exact ⟨_, rfl⟩
    · rw [if_neg h0]
      by_cases h1 : foundCount (items.map (fun it => it.inventory_id))
          s.inventories ≠ (items.map (fun it => it.inventory_id)).length
      · rw [if_pos h1]
        exact ⟨_, rfl⟩
      · rw [if_neg h1]
        have hfc := foundCount_eq (items.map (fun it => it.inventory_id))
          s.inventories (by omega)
        have hnd := hfc.1
        by_cases h2 : 1 < ((fetchedRows (items.map (fun it => it.inventory_id))
            s.inventories).map (fun e => e.2.holder_id)).dedup.length
        · rw [if_pos h2]
          exact ⟨_, rfl⟩
        · rw [if_neg h2]
          by_cases h3 : 1 < ((fetchedRows (items.map (fun it => it.inventory_id))
              s.inventories).map (fun e => e.2.owner_id)).dedup.length
          · rw [if_pos h3]
            exact ⟨_, rfl⟩
          · rw [if_neg h3]
            by_cases h4 : ¬ (∀ e ∈ fetchedRows
                (items.map (fun it => it.inventory_id)) s.inventories,
                e.2.owner_id = uid)
            · rw [if_pos h4]
              exact ⟨_, rfl⟩
            · rw [if_neg h4]
              by_cases h5 : ¬ (∀ e ∈ fetchedRows
                  (items.map (fun it => it.inventory_id)) s.inventories,
                  e.2.status = InventoryStatus.active)
              · rw [if_pos h5]
                exact ⟨_, rfl⟩
              · rw [if_neg h5]
                obtain ⟨e, he⟩ :=
                  reserveLoop_insufficient items s.inventories hnd hbad
                simp only [he]
                exact ⟨e, rfl⟩
  · intro uid items nrid s
    unfold create_fulfillment_request
    by_cases h0 : items.isEmpty = true
    · rw [if_pos h0]
      exact ⟨_, rfl⟩
    · rw [if_neg h0]
      by_cases h1 : foundCount (items.map (fun it => it.inventory_id))
          s.inventories ≠ (items.map (fun it => it.inventory_id)).length
      · rw [if_pos h1]
        exact ⟨_, rfl⟩
      · rw [if_neg h1]
        by_cases h2 : 1 < ((fetchedRows (items.map (fun it => it.inventory_id))
            s.inventories).map (fun e => e.2.holder_id)).dedup.length
        · rw [if_pos h2]
          exact ⟨_, rfl⟩
        · rw [if_neg h2]
          by_cases h3 : 1 < ((fetchedRows
              (items.map (fun it => it.inventory_id))
              s.inventories).map (fun e => e.2.owner_id)).dedup.length
          · rw [if_pos h3]
            exact ⟨_, rfl⟩
          · rw [if_neg h3]
            by_cases h4 : ¬ (∀ e ∈ fetchedRows
                (items.map (fun it => it.inventory_id)) s.inventories,
                e.2.owner_id = uid)
            · rw [if_pos h4]
              exact ⟨_, rfl⟩
            · rw [if_neg h4]
              by_cases h5 : ¬ (∀ e ∈ fetchedRows
                  (items.map (fun it => it.inventory_id)) s.inventories,
                  e.2.status = InventoryStatus.active)
              · rw [if_pos h5]
                exact ⟨_, rfl⟩
              · rw [if_neg h5]
                cases hr : reserveLoop items s.inventories with
                | error e => exact ⟨e, rfl⟩
                | ok invs2 => exact ⟨.persistence, rfl⟩

theorem create_request_all_or_nothing_witness :
    (∃ e, create_fulfillment_request 10 [⟨5, 6, []⟩] 99 true
      ⟨[], [(5, ⟨100, 10, 20, 8, 3, .active⟩)], [], []⟩ = .error e) ∧
    committed (⟨[], [(5, ⟨100, 10, 20, 8, 3, .active⟩)], [], []⟩ : Store)
      (create_fulfillment_request 10 [⟨5, 6, []⟩] 99 true
        ⟨[], [(5, ⟨100, 10, 20, 8, 3, .active⟩)], [], []⟩) =
      ⟨[], [(5, ⟨100, 10, 20, 8, 3, .active⟩)], [], []⟩ := by
  have hbad : ∃ it ∈ ([⟨5, 6, []⟩] : List CreateItem), ∀ inv,
      lookupA it.inventory_id
        ([(5, (⟨100, 10, 20, 8, 3, .active⟩ : InventoryRow))]) = some inv →
      inv.available_qty - inv.reserved_qty < it.quantity := by
    refine ⟨⟨5, 6, []⟩, by decide, ?_⟩
    intro inv hinv
    have h5 : some (⟨100, 10, 20, 8, 3, .active⟩ : InventoryRow) = some inv :=
      hinv
    injection h5 with h6
    rw [← h6]
    decide
  obtain ⟨e, he⟩ := create_request_all_or_nothing.2.1 10 [⟨5, 6, []⟩] 99 true
    ⟨[], [(5, ⟨100, 10, 20, 8, 3, .active⟩)], [], []⟩ hbad
  exact ⟨⟨e, he⟩, create_request_all_or_nothing.1 10 [⟨5, 6, []⟩] 99 true
    ⟨[], [(5, ⟨100, 10, 20, 8, 3, .active⟩)], [], []⟩ e he⟩

theorem shipLabels_cons_none (lid : Nat) (rest : List Nat)
    (labels : List (Nat × LabelStatus)) (h : lookupA lid labels = none) :
    shipLabels (lid :: rest) labels = .error (.labelNotFound lid) := by
  simp only [shipLabels, h]

theorem shipLabels_cons_some (lid : Nat) (rest : List Nat)
    (labels : List (Nat × LabelStatus)) (st : LabelStatus)
    (h : lookupA lid labels = some st) :
    shipLabels (lid :: rest) labels =
      shipLabels rest (updateA lid .shipped labels) := by
  simp only [shipLabels, h]

theorem shipLabels_ok_none (urls : List Nat) (k : Nat) :
    ∀ labels labels2, shipLabels urls labels = .ok labels2 →
    lookupA k labels = none → lookupA k labels2 = none := by
  induction urls with
  | nil =>
    intro labels labels2 h hk
    simp only [shipLabels, Except.ok.injEq] at h
    rw [← h]
    exact hk
  | cons lid rest ih =>
    intro labels labels2 h hk
    cases hl : lookupA lid labels with
    | none =>
      rw [shipLabels_cons_none lid rest labels hl] at h
      simp at h
    | some st =>
      rw [shipLabels_cons_some lid rest labels st hl] at h
      exact ih _ _ h (lookupA_none_updateA _ _ _ _ hk)

theorem shipLabels_missing (urls : List Nat) (k : Nat) :
    ∀ labels, k ∈ urls → lookupA k labels = none →
    ∃ e, shipLabels urls labels = .error e := by
  induction urls with
  | nil =>
    intro labels hk _
    simp at hk
  | cons lid rest ih =>
    intro labels hk hmiss
    cases hl : lookupA lid labels with
    | none => exact ⟨_, shipLabels_cons_none lid rest labels hl⟩
    | some st =>
      rw [shipLabels_cons_some lid rest labels st hl]
      rcases List.mem_cons.mp hk with he | hm
      · subst he
        rw [hl] at hmiss
        simp at hmiss
      · exact ih _ hm (lookupA_none_updateA _ _ _ _ hmiss)

theorem fulfillItem_eq_none (rid : Nat) (it : ItemRow) (s : Store)
    (h : lookupA it.inventory_id s.inventories = none) :
    fulfillItem rid it s = .error (.inventoryNotFound it.inventory_id) := by
  simp only [fulfillItem, h]

theorem fulfillItem_eq_some (rid : Nat) (it : ItemRow) (s : Store)
    (inv : InventoryRow)
    (h : lookupA it.inventory_id s.inventories = some inv) :
    fulfillItem rid it s =
      (if inv.reserved_qty < it.quantity then
        .error (.reservedMismatch it.inventory_id)
      else if inv.available_qty < it.quantity then
        .error (.notEnough it.inventory_id)
      else
        match shipLabels it.label_urls s.labels with
        | .error e => .error e
        | .ok labels2 =>
          .ok { s with
            inventories := updateA it.inventory_id
              { inv with
                available_qty := inv.available_qty - it.quantity,
                reserved_qty := inv.reserved_qty - it.quantity,
                status := if inv.available_qty - it.quantity = 0 then
                    .inactive
                  else inv.status } s.inventories,
            labels := labels2,
            inv_txns := s.inv_txns ++
              [⟨it.inventory_id, .debit, it.quantity, .outbound,
                some rid⟩] }) := by
  simp only [fulfillItem, h]

theorem fulfillItem_ok_shape (rid : Nat) (it : ItemRow) (s s2 : Store)
    (h : fulfillItem rid it s = .ok s2) :
    ∃ inv labels2, lookupA it.inventory_id s.inventories = some inv ∧
      ¬ inv.reserved_qty < it.quantity ∧
      ¬ inv.available_qty < it.quantity ∧
      shipLabels it.label_urls s.labels = .ok labels2 ∧
      s2 = { s with
        inventories := updateA it.inventory_id
          { inv with
            available_qty := inv.available_qty - it.quantity,
            reserved_qty := inv.reserved_qty - it.quantity,
            status := if inv.available_qty - it.quantity = 0 then .inactive
              else inv.status } s.inventories,
        labels := labels2,
        inv_txns := s.inv_txns ++
          [⟨it.inventory_id, .debit, it.quantity, .outbound, some rid⟩] } := by
  cases hl : lookupA it.inventory_id s.inventories with
  | none =>
    rw [fulfillItem_eq_none rid it s hl] at h
    simp at h
  | some inv =>
    rw [fulfillItem_eq_some rid it s inv hl] at h
    split at h
    · simp at h
    · split at h
      · simp at h
      · split at h
        · simp at h
        · simp only [Except.ok.injEq] at h
          exact ⟨inv, _, rfl, by assumption, by assumption, by assumption,
            h.symm⟩

theorem itemsLoop_cons_err (rid : Nat) (it : ItemRow) (rest : List ItemRow)
    (s : Store) (e : FulfillError) (h : fulfillItem rid it s = .error e) :
    itemsLoop rid (it :: rest) s = .error e := by
  simp only [itemsLoop, h]

theorem itemsLoop_cons_ok (rid : Nat) (it : ItemRow) (rest : List ItemRow)
    (s s3 : Store) (h : fulfillItem rid it s = .ok s3) :
    itemsLoop rid (it :: rest) s = itemsLoop rid rest s3 := by
  simp only [itemsLoop, h]

theorem fulfillItem_preserves_badItem (rid : Nat) (it2 : ItemRow)
    (s s2 : Store) (it : ItemRow) (h : fulfillItem rid it2 s = .ok s2)
    (hq2 : 0 ≤ it2.quantity) (hb : badItem s it) : badItem s2 it := by
  obtain ⟨inv, labels2, hl, hr, ha, hs, hshape⟩ := fulfillItem_ok_shape rid it2 s s2 h
  subst hshape
  rcases hb with hnone | ⟨inv0, hinv0, hbad0⟩ | ⟨lid, hmem, hlid⟩
  · exact Or.inl (lookupA_none_updateA _ _ _ _ hnone)
  · refine Or.inr (Or.inl ?_)
    by_cases hk : it.inventory_id = it2.inventory_id
    · rw [hk] at hinv0
      rw [hinv0] at hl
      have hinv : inv0 = inv := Option.some.inj hl
      subst hinv
      refine ⟨{ inv0 with
          available_qty := inv0.available_qty - it2.quantity,
          reserved_qty := inv0.reserved_qty - it2.quantity,
          status := if inv0.available_qty - it2.quantity = 0 then .inactive
            else inv0.status }, ?_, ?_⟩
      · show lookupA it.inventory_id
          (updateA it2.inventory_id _ s.inventories) = _
        rw [hk, lookupA_updateA_self, hinv0]
        rfl
      · dsimp only
        omega
    · exact ⟨inv0, by
        show lookupA it.inventory_id
          (updateA it2.inventory_id _ s.inventories) = some inv0
        rw [lookupA_updateA_ne _ _ _ _ hk]
        exact hinv0, hbad0⟩
  · exact Or.inr (Or.inr ⟨lid, hmem,
      shipLabels_ok_none it2.label_urls lid _ _ hs hlid⟩)

theorem fulfillItem_bad_errors (rid : Nat) (it : ItemRow) (s : Store)
    (hb : badItem s it) : ∃ e, fulfillItem rid it s = .error e := by
  rcases hb with hnone | ⟨inv, hinv, hbad⟩ | ⟨lid, hmem, hlid⟩
  · exact ⟨_, fulfillItem_eq_none rid it s hnone⟩
  · rw [fulfillItem_eq_some rid it s inv hinv]
    by_cases hr : inv.reserved_qty < it.quantity
    · rw [if_pos hr]
      exact ⟨_, rfl⟩
    · rw [if_neg hr]
      have ha : inv.available_qty < it.quantity := by
        rcases hbad with h1 | h2
        · omega
        · exact h2
      rw [if_pos ha]
      exact ⟨_, rfl⟩
  · cases hl : lookupA it.inventory_id s.inventories with
    | none => exact ⟨_, fulfillItem_eq_none rid it s hl⟩
    | some inv =>
      rw [fulfillItem_eq_some rid it s inv hl]
      by_cases hr : inv.reserved_qty < it.quantity
      · rw [if_pos hr]
        exact ⟨_, rfl⟩
      · rw [if_neg hr]
        by_cases ha : inv.available_qty < it.quantity
        · rw [if_pos ha]
          exact ⟨_, rfl⟩
        · rw [if_neg ha]
          obtain ⟨e, he⟩ := shipLabels_missing it.label_urls lid s.labels
            hmem hlid
          cases hs : shipLabels it.label_urls s.labels with
          | error e2 => exact ⟨e2, rfl⟩
          | ok l2 =>
            rw [hs] at he
            simp at he

theorem itemsLoop_bad_errors (rid : Nat) (items : List ItemRow) :
    ∀ s : Store, (∀ it ∈ items, 0 ≤ it.quantity) →
    (∃ it ∈ items, badItem s it) →
    ∃ e, itemsLoop rid items s = .error e := by
  induction items with
  | nil =>
    intro s _ hbad
    obtain ⟨it, hmem, _⟩ := hbad
    simp at hmem
  | cons hd rest ih =>
    intro s hq hbad
    obtain ⟨it, hmem, hb⟩ := hbad
    rcases List.mem_cons.mp hmem with he | hm
    · subst he
      obtain ⟨e, he⟩ := fulfillItem_bad_errors rid it s hb
      exact ⟨e, itemsLoop_cons_err rid it rest s e he⟩
    · cases hf : fulfillItem rid hd s with
      | error e => exact ⟨e, itemsLoop_cons_err rid hd rest s e hf⟩
      | ok s3 =>
        rw [itemsLoop_cons_ok rid hd rest s s3 hf]
        refine ih s3 (fun i hi => hq i (List.mem_cons_of_mem _ hi)) ?_
        exact ⟨it, hm, fulfillItem_preserves_badItem rid hd s s3 it hf
          (hq hd (List.mem_cons_self _ _)) hb⟩

theorem itemsLoop_requests (rid : Nat) (items : List ItemRow) :
    ∀ s s2 : Store, itemsLoop rid items s = .ok s2 →
    s2.requests = s.requests := by
  induction items with
  | nil =>
    intro s s2 h
    simp only [itemsLoop, Except.ok.injEq] at h
    rw [← h]
  | cons it rest ih =>
    intro s s2 h
    cases hf : fulfillItem rid it s with
    | error e =>
      rw [itemsLoop_cons_err rid it rest s e hf] at h
      simp at h
    | ok s3 =>
      rw [itemsLoop_cons_ok rid it rest s s3 hf] at h
      obtain ⟨inv, labels2, _, _, _, _, hshape⟩ :=
        fulfillItem_ok_shape rid it s s3 hf
      rw [ih s3 s2 h, hshape]

theorem fulfillItem_inv_ne (rid : Nat) (it : ItemRow) (s s2 : Store)
    (h : fulfillItem rid it s = .ok s2) (k : Nat)
    (hk : it.inventory_id ≠ k) :
    lookupA k s2.inventories = lookupA k s.inventories := by
  obtain ⟨inv, labels2, _, _, _, _, hshape⟩ :=
    fulfillItem_ok_shape rid it s s2 h
  subst hshape
  exact lookupA_updateA_ne k it.inventory_id _ s.inventories
    (fun he => hk he.symm)

theorem itemsLoop_inv_ne (rid : Nat) (items : List ItemRow) :
    ∀ s s2 : Store, itemsLoop rid items s = .ok s2 →
    ∀ k, (∀ it ∈ items, it.inventory_id ≠ k) →
    lookupA k s2.inventories = lookupA k s.inventories := by
  induction items with
  | nil =>
    intro s s2 h k _
    simp only [itemsLoop, Except.ok.injEq] at h
    rw [← h]
  | cons it rest ih =>
    intro s s2 h k hk
    cases hf : fulfillItem rid it s with
    | error e =>
      rw [itemsLoop_cons_err rid it rest s e hf] at h
      simp at h
    | ok s3 =>
      rw [itemsLoop_cons_ok rid it rest s s3 hf] at h
      rw [ih s3 s2 h k (fun i hi => hk i (List.mem_cons_of_mem _ hi))]
      exact fulfillItem_inv_ne rid it s s3 hf k
        (hk it (List.mem_cons_self _ _))

theorem fulfillItem_consumes (rid : Nat) (it : ItemRow) (s s2 : Store)
    (inv : InventoryRow) (h : fulfillItem rid it s = .ok s2)
    (hinv : lookupA it.inventory_id s.inventories = some inv) :
    lookupA it.inventory_id s2.inventories =
      some { inv with
        available_qty := inv.available_qty - it.quantity,
        reserved_qty := inv.reserved_qty - it.quantity,
        status := if inv.available_qty - it.quantity = 0 then .inactive
          else inv.status } := by
  obtain ⟨inv2, labels2, hl, _, _, _, hshape⟩ :=
    fulfillItem_ok_shape rid it s s2 h
  rw [hinv] at hl
  have hi2 : inv2 = inv := by
    injection hl with h5
    exact h5.symm
  subst hi2
  subst hshape
  show lookupA it.inventory_id
    (updateA it.inventory_id _ s.inventories) = _
  rw [lookupA_updateA_self, hinv]
  rfl

theorem itemsLoop_consumes (rid : Nat) (items : List ItemRow) :
    ∀ s s2 : Store, itemsLoop rid items s = .ok s2 →
    (items.map (fun it => it.inventory_id)).Nodup →
    ∀ it ∈ items, ∀ inv,
    lookupA it.inventory_id s.inventories = some inv →
    lookupA it.inventory_id s2.inventories =
      some { inv with
        available_qty := inv.available_qty - it.quantity,
        reserved_qty := inv.reserved_qty - it.quantity,
        status := if inv.available_qty - it.quantity = 0 then .inactive
          else inv.status } := by
  induction items with
  | nil =>
    intro s s2 _ _ it hmem
    simp at hmem
  | cons hd rest ih =>
    intro s s2 h hnd it hmem inv hinv
    simp only [List.map_cons, List.nodup_cons] at hnd
    obtain ⟨hhd, hnd2⟩ := hnd
    cases hf : fulfillItem rid hd s with
    | error e =>
      rw [itemsLoop_cons_err rid hd rest s e hf] at h
      simp at h
    | ok s3 =>
      rw [itemsLoop_cons_ok rid hd rest s s3 hf] at h
      rcases List.mem_cons.mp hmem with he | hm
      · subst he
        rw [itemsLoop_inv_ne rid rest s3 s2 h it.inventory_id
          (fun i hi hei => hhd (hei ▸ List.mem_map_of_mem _ hi))]
        exact fulfillItem_consumes rid it s s3 inv hf hinv
      · have hne : it.inventory_id ≠ hd.inventory_id := by
          intro he
          exact hhd (he ▸ List.mem_map_of_mem _ hm)
        refine ih s3 s2 h hnd2 it hm inv ?_
        rw [fulfillItem_inv_ne rid hd s s3 hf it.inventory_id
          (fun he => hne he.symm)]
        exact hinv

/-- C4: fulfill_request is atomic across all items: any error commits
nothing (no inventory consumed, no label shipped, no InventoryTransaction
written, the request still pending); a missing or insufficient inventory or
a missing referenced label on any item forces an error; and on success the
request becomes fulfilled and every item's inventory has available_qty and
reserved_qty each decremented by the item quantity. -/
theorem fulfill_request_atomic :
    (∀ (rid uid : Nat) (s : Store) (e : FulfillError),
      fulfill_request rid uid s = .error e →
      committed s (fulfill_request rid uid s) = s) ∧
    (∀ (rid uid : Nat) (s : Store) (req : RequestRow),
      lookupA rid s.requests = some req →
      (∀ it ∈ req.items, 0 ≤ it.quantity) →
      (∃ it ∈ req.items, badItem s it) →
      ∃ e, fulfill_request rid uid s = .error e) ∧
    (∀ (rid uid : Nat) (s s2 : Store) (req : RequestRow),
      lookupA rid s.requests = some req →
      fulfill_request rid uid s = .ok s2 →
      (req.items.map (fun it => it.inventory_id)).Nodup →
      lookupA rid s2.requests = some { req with status := .fulfilled } ∧
      (∀ it ∈ req.items, ∀ inv,
        lookupA it.inventory_id s.inventories = some inv →
        lookupA it.inventory_id s2.inventories =
          some { inv with
            available_qty := inv.available_qty - it.quantity,
            reserved_qty := inv.reserved_qty - it.quantity,
            status := if inv.available_qty - it.quantity = 0 then .inactive
              else inv.status })) := by
  refine ⟨?_, ?_, ?_⟩
  · intro rid uid s e h
    rw [h]
    rfl
  · intro rid uid s req hreq hq hbad
    unfold fulfill_request
    simp only [hreq]
    by_cases h1 : req.status ≠ .pending
    · rw [if_pos h1]
      exact ⟨_, rfl⟩
    · rw [if_neg h1]
      by_cases h2 : req.holder_id ≠ uid
      · rw [if_pos h2]
        exact ⟨_, rfl⟩
      · rw [if_neg h2]
        obtain ⟨e, he⟩ := itemsLoop_bad_errors rid req.items s hq hbad
        simp only [he]
        exact ⟨e, rfl⟩
  · intro rid uid s s2 req hreq h hnd
    unfold fulfill_request at h
    simp only [hreq] at h
    split at h
    · simp at h
    · split at h
      · simp at h
      · split at h
        · simp at h
        · rename_i s3 hloop
          simp only [Except.ok.injEq] at h
          subst h
          constructor
          · dsimp only
            rw [itemsLoop_requests rid req.items s s3 hloop,
              lookupA_updateA_self, hreq]
            rfl
          · intro it hit inv hinv
            dsimp only
            exact itemsLoop_consumes rid req.items s s3 hloop hnd it hit
              inv hinv

theorem fulfill_request_atomic_witness :
    (∃ e, fulfill_request 1 20
      ⟨[(1, ⟨10, 20, .pending, [⟨5, 3, [40]⟩]⟩)],
        [(5, ⟨100, 10, 20, 8, 3, .active⟩)], [], []⟩ = .error e) ∧
    committed (⟨[(1, ⟨10, 20, .pending, [⟨5, 3, [40]⟩]⟩)],
        [(5, ⟨100, 10, 20, 8, 3, .active⟩)], [], []⟩ : Store)
      (fulfill_request 1 20
        ⟨[(1, ⟨10, 20, .pending, [⟨5, 3, [40]⟩]⟩)],
          [(5, ⟨100, 10, 20, 8, 3, .active⟩)], [], []⟩) =
      ⟨[(1, ⟨10, 20, .pending, [⟨5, 3, [40]⟩]⟩)],
        [(5, ⟨100, 10, 20, 8, 3, .active⟩)], [], []⟩ ∧
    lookupA 1 ([(1, (⟨10, 20, .fulfilled, [⟨5, 3, [40]⟩]⟩ : RequestRow))]) =
      some ⟨10, 20, .fulfilled, [⟨5, 3, [40]⟩]⟩ ∧
    lookupA 5 ([(5, (⟨100, 10, 20, 5, 0, .active⟩ : InventoryRow))]) =
      some ⟨100, 10, 20, 5, 0, .active⟩ := by
  have hbad : ∃ it ∈ ([⟨5, 3, [40]⟩] : List ItemRow),
      badItem ⟨[(1, ⟨10, 20, .pending, [⟨5, 3, [40]⟩]⟩)],
        [(5, ⟨100, 10, 20, 8, 3, .active⟩)], [], []⟩ it :=
    ⟨⟨5, 3, [40]⟩, by decide, Or.inr (Or.inr ⟨40, by decide, by decide⟩)⟩
  obtain ⟨e, he⟩ := fulfill_request_atomic.2.1 1 20
    ⟨[(1, ⟨10, 20, .pending, [⟨5, 3, [40]⟩]⟩)],
      [(5, ⟨100, 10, 20, 8, 3, .active⟩)], [], []⟩
    ⟨10, 20, .pending, [⟨5, 3, [40]⟩]⟩ (by decide) (by decide) hbad
  have h3 := fulfill_request_atomic.2.2 1 20
    ⟨[(1, ⟨10, 20, .pending, [⟨5, 3, [40]⟩]⟩)],
      [(5, ⟨100, 10, 20, 8, 3, .active⟩)], [(40, .new)], []⟩
    ⟨[(1, ⟨10, 20, .fulfilled, [⟨5, 3, [40]⟩]⟩)],
      [(5, ⟨100, 10, 20, 5, 0, .active⟩)], [(40, .shipped)],
      [⟨5, .debit, 3, .outbound, some 1⟩]⟩
    ⟨10, 20, .pending, [⟨5, 3, [40]⟩]⟩ (by decide) (by rfl) (by decide)
  exact ⟨⟨e, he⟩,
    fulfill_request_atomic.1 1 20
      ⟨[(1, ⟨10, 20, .pending, [⟨5, 3, [40]⟩]⟩)],
        [(5, ⟨100, 10, 20, 8, 3, .active⟩)], [], []⟩ e he,
    h3.1,
    h3.2 ⟨5, 3, [40]⟩ (by decide) ⟨100, 10, 20, 8, 3, .active⟩ (by decide)⟩

theorem lookupA_mem {α : Type} (k : Nat) (l : List (Nat × α)) (v : α)
    (h : lookupA k l = some v) : (k, v) ∈ l := by
  induction l with
  | nil => simp [lookupA] at h
  | cons hd tl ih =>
    obtain ⟨k2, v2⟩ := hd
    unfold lookupA at h
    split at h
    · rename_i hk
      simp only [Option.some.injEq] at h
      rw [← hk, ← h]
      exact List.mem_cons_self _ _
    · exact List.mem_cons_of_mem _ (ih h)

theorem mem_updateA {α : Type} (k : Nat) (v : α) (l : List (Nat × α))
    (e : Nat × α) (h : e ∈ updateA k v l) : e.2 = v ∨ e ∈ l := by
  induction l with
  | nil => simp [updateA] at h
  | cons hd tl ih =>
    obtain ⟨k2, v2⟩ := hd
    unfold updateA at h
    split at h
    · rcases List.mem_cons.mp h with he | ht
      · exact Or.inl (by rw [he])
      · rcases ih ht with h1 | h2
        · exact Or.inl h1
        · exact Or.inr (List.mem_cons_of_mem _ h2)
    · rcases List.mem_cons.mp h with he | ht
      · exact Or.inr (by rw [he]; exact List.mem_cons_self _ _)
      · rcases ih ht with h1 | h2
        · exact Or.inl h1
        · exact Or.inr (List.mem_cons_of_mem _ h2)

theorem updateA_pred {α : Type} (P : α → Prop) (k : Nat) (v : α)
    (l : List (Nat × α)) (hl : ∀ e ∈ l, P e.2) (hv : P v) :
    ∀ e ∈ updateA k v l, P e.2 := by
  intro e he
  rcases mem_updateA k v l e he with h1 | h2
  · rw [h1]
    exact hv
  · exact hl e h2

theorem find_existing_mem (p h0 o : Nat) (l : List (Nat × InventoryRow))
    (k : Nat) (v : InventoryRow)
    (hf : find_existing p h0 o l = some (k, v)) : (k, v) ∈ l := by
  induction l with
  | nil => simp [find_existing] at hf
  | cons hd tl ih =>
    obtain ⟨k2, v2⟩ := hd
    unfold find_existing at hf
    split at hf
    · simp only [Option.some.injEq] at hf
      rw [← hf]
      exact List.mem_cons_self _ _
    · exact List.mem_cons_of_mem _ (ih hf)

theorem reserveLoop_allInvOk (items : List CreateItem) :
    ∀ invs invs2, reserveLoop items invs = .ok invs2 →
    (∀ it ∈ items, 0 < it.quantity) →
    (∀ e ∈ invs, invOk e.2) → ∀ e ∈ invs2, invOk e.2 := by
  induction items with
  | nil =>
    intro invs invs2 h _ hok
    simp only [reserveLoop, Except.ok.injEq] at h
    rw [← h]
    exact hok
  | cons it rest ih =>
    intro invs invs2 h hq hok
    cases hl : lookupA it.inventory_id invs with
    | none =>
      rw [reserveLoop_cons_none it rest invs hl] at h
      simp at h
    | some inv =>
      rw [reserveLoop_cons_some it rest invs inv hl] at h
      split at h
      · simp at h
      · rename_i hins
        refine ih _ _ h (fun i hi => hq i (List.mem_cons_of_mem _ hi)) ?_
        apply updateA_pred _ _ _ _ hok
        have hio : invOk inv := hok _ (lookupA_mem _ _ _ hl)
        have hq0 : 0 < it.quantity := hq it (List.mem_cons_self _ _)
        unfold invOk at hio ⊢
        dsimp only
        omega

theorem releaseLoop_allInvOk (items : List ItemRow) :
    ∀ invs, (∀ it ∈ items, 0 ≤ it.quantity) → (∀ e ∈ invs, invOk e.2) →
    ∀ e ∈ releaseLoop items invs, invOk e.2 := by
  induction items with
  | nil => intro invs _ hok; exact hok
  | cons it rest ih =>
    intro invs hq hok
    simp only [releaseLoop]
    cases hl : lookupA it.inventory_id invs with
    | none => exact ih invs (fun i hi => hq i (List.mem_cons_of_mem _ hi)) hok
    | some inv =>
      apply ih _ (fun i hi => hq i (List.mem_cons_of_mem _ hi))
      apply updateA_pred _ _ _ _ hok
      have hio : invOk inv := hok _ (lookupA_mem _ _ _ hl)
      have hq0 : 0 ≤ it.quantity := hq it (List.mem_cons_self _ _)
      unfold invOk at hio ⊢
      dsimp only
      omega

theorem fulfillItem_allInvOk (rid : Nat) (it : ItemRow) (s s2 : Store)
    (h : fulfillItem rid it s = .ok s2)
    (hok : ∀ e ∈ s.inventories, invOk e.2) :
    ∀ e ∈ s2.inventories, invOk e.2 := by
  obtain ⟨inv, labels2, hl, hr, ha, hs, hshape⟩ :=
    fulfillItem_ok_shape rid it s s2 h
  subst hshape
  dsimp only
  apply updateA_pred _ _ _ _ hok
  have hio : invOk inv := hok _ (lookupA_mem _ _ _ hl)
  unfold invOk at hio ⊢
  dsimp only
  omega

theorem itemsLoop_allInvOk (rid : Nat) (items : List ItemRow) :
    ∀ s s2, itemsLoop rid items s = .ok s2 →
    (∀ e ∈ s.inventories, invOk e.2) → ∀ e ∈ s2.inventories, invOk e.2 := by
  induction items with
  | nil =>
    intro s s2 h hok
    simp only [itemsLoop, Except.ok.injEq] at h
    rw [← h]
    exact hok
  | cons it rest ih =>
    intro s s2 h hok
    cases hf : fulfillItem rid it s with
    | error e =>
      rw [itemsLoop_cons_err rid it rest s e hf] at h
      simp at h
    | ok s3 =>
      rw [itemsLoop_cons_ok rid it rest s s3 hf] at h
      exact ih s3 s2 h (fulfillItem_allInvOk rid it s s3 hf hok)

theorem create_ok_shape (uid : Nat) (items : List CreateItem) (nrid : Nat)
    (pok : Bool) (s s2 : Store)
    (h : create_fulfillment_request uid items nrid pok s = .ok s2) :
    ∃ invs2, reserveLoop items s.inventories = .ok invs2 ∧
      s2.inventories = invs2 := by
  unfold create_fulfillment_request at h
  by_cases h0 : items.isEmpty = true
  · rw [if_pos h0] at h
    simp at h
  · rw [if_neg h0] at h
    by_cases h1 : foundCount (items.map (fun it => it.inventory_id))
        s.inventories ≠ (items.map (fun it => it.inventory_id)).length
    · rw [if_pos h1] at h
      simp at h
    · rw [if_neg h1] at h
      by_cases h2 : 1 < ((fetchedRows (items.map (fun it => it.inventory_id))
          s.inventories).map (fun e => e.2.holder_id)).dedup.length
      · rw [if_pos h2] at h
        simp at h
      · rw [if_neg h2] at h
        by_cases h3 : 1 < ((fetchedRows
            (items.map (fun it => it.inventory_id))
            s.inventories).map (fun e => e.2.owner_id)).dedup.length
        · rw [if_pos h3] at h
          simp at h
        · rw [if_neg h3] at h
          by_cases h4 : ¬ (∀ e ∈ fetchedRows
              (items.map (fun it => it.inventory_id)) s.inventories,
              e.2.owner_id = uid)
          · rw [if_pos h4] at h
            simp at h
          · rw [if_neg h4] at h
            by_cases h5 : ¬ (∀ e ∈ fetchedRows
                (items.map (fun it => it.inventory_id)) s.inventories,
                e.2.status = InventoryStatus.active)
            · rw [if_pos h5] at h
              simp at h
            · rw [if_neg h5] at h
              cases hres : reserveLoop items s.inventories with
              | error e => simp [hres] at h
              | ok invs2 =>
                simp only [hres] at h
                by_cases hp : pok = true
                · rw [if_pos hp] at h
                  simp only [Except.ok.injEq] at h
                  exact ⟨invs2, rfl, by rw [← h]⟩
                · rw [if_neg hp] at h
                  simp at h

theorem delete_request_ok_shape (rid uid : Nat) (s s2 : Store)
    (h : delete_fulfillment_request rid uid s = .ok s2) :
    ∃ req, lookupA rid s.requests = some req ∧
      s2.inventories = releaseLoop req.items s.inventories := by
  unfold delete_fulfillment_request at h
  split at h
  · simp at h
  · split at h
    · simp at h
    · split at h
      · simp at h
      · simp only [Except.ok.injEq] at h
        exact ⟨_, by assumption, by rw [← h]⟩

theorem fulfill_request_ok_shape (rid uid : Nat) (s s2 : Store)
    (h : fulfill_request rid uid s = .ok s2) :
    ∃ req s3, lookupA rid s.requests = some req ∧
      itemsLoop rid req.items s = .ok s3 ∧
      s2.inventories = s3.inventories := by
  unfold fulfill_request at h
  split at h
  · simp at h
  · split at h
    · simp at h
    · split at h
      · simp at h
      · split at h
        · simp at h
        · simp only [Except.ok.injEq] at h
          exact ⟨_, _, by assumption, by assumption, by rw [← h]⟩

/-- C6: 0 ≤ reserved_qty ≤ available_qty holds for every inventory row
after every committed operation: add inventory, reserve on fulfillment
request creation (positive item quantities, as the schema validates),
release on request deletion (with the stored item quantities positive),
consume on fulfillment, and soft delete.  Error results commit nothing, so
the invariant also survives every failed operation. -/
theorem inventory_quantities_invariant :
    (∀ (p h0 o uid : Nat) (qty : ℤ) (z : Bool) (nid : Nat) (s s2 : Store),
      add_inventory p h0 o uid qty z nid s = .ok s2 →
      storeInvOk s → storeInvOk s2) ∧
    (∀ (uid : Nat) (items : List CreateItem) (nrid : Nat) (pok : Bool)
      (s s2 : Store),
      create_fulfillment_request uid items nrid pok s = .ok s2 →
      (∀ it ∈ items, 0 < it.quantity) → storeInvOk s → storeInvOk s2) ∧
    (∀ (rid uid : Nat) (s s2 : Store),
      delete_fulfillment_request rid uid s = .ok s2 →
      storeItemsPos s → storeInvOk s → storeInvOk s2) ∧
    (∀ (rid uid : Nat) (s s2 : Store),
      fulfill_request rid uid s = .ok s2 → storeInvOk s → storeInvOk s2) ∧
    (∀ (iid uid : Nat) (s s2 : Store),
      delete_inventory iid uid s = .ok s2 → storeInvOk s → storeInvOk s2) := by
  refine ⟨?_, ?_, ?_, ?_, ?_⟩
  · intro p h0 o uid qty z nid s s2 h hok
    unfold add_inventory at h
    split at h
    · simp at h
    · split at h
      · simp at h
      · split at h
        · simp at h
        · split at h
          · rename_i k inv hfind
            simp only [Except.ok.injEq] at h
            rw [← h]
            show ∀ e ∈ updateA k _ s.inventories, invOk e.2
            apply updateA_pred _ _ _ _ hok
            have hio : invOk inv := hok _ (find_existing_mem _ _ _ _ _ _ hfind)
            unfold invOk at hio ⊢
            dsimp only
            omega
          · simp only [Except.ok.injEq] at h
            rw [← h]
            intro e he
            rcases List.mem_append.mp he with h1 | h2
            · exact hok e h1
            · rw [List.mem_singleton] at h2
              rw [h2]
              unfold invOk
              dsimp only
              omega
  · intro uid items nrid pok s s2 h hq hok
    obtain ⟨invs2, hres, hinv⟩ := create_ok_shape uid items nrid pok s s2 h
    intro e he
    rw [hinv] at he
    exact reserveLoop_allInvOk items s.inventories invs2 hres hq hok e he
  · intro rid uid s s2 h hpos hok
    obtain ⟨req, hreq, hinv⟩ := delete_request_ok_shape rid uid s s2 h
    intro e he
    rw [hinv] at he
    exact releaseLoop_allInvOk req.items s.inventories
      (fun it hi => le_of_lt (hpos (rid, req) (lookupA_mem _ _ _ hreq) it hi))
      hok e he
  · intro rid uid s s2 h hok
    obtain ⟨req, s3, hreq, hloop, hinv⟩ := fulfill_request_ok_shape rid uid s s2 h
    intro e he
    rw [hinv] at he
    exact itemsLoop_allInvOk rid req.items s s3 hloop hok e he
  · intro iid uid s s2 h hok
    unfold delete_inventory at h
    split at h
    · simp at h
    · split at h
      · simp at h
      · split at h
        · simp at h
        · split at h
          · simp at h
          · rename_i inv hinv hown hres hst
            simp only [Except.ok.injEq] at h
            rw [← h]
            show ∀ e ∈ updateA iid _ s.inventories, invOk e.2
            apply updateA_pred _ _ _ _ hok
            have hio : invOk inv := hok _ (lookupA_mem _ _ _ (by assumption))
            unfold invOk at hio ⊢
            dsimp only
            omega

theorem inventory_quantities_invariant_witness :
    storeInvOk ⟨[], [(33, ⟨100, 10, 20, 5, 0, .active⟩)], [],
      [⟨33, .credit, 5, .creation, none⟩]⟩ ∧
    storeInvOk ⟨[(7, ⟨10, 20, .pending, [⟨5, 2, []⟩]⟩)],
      [(5, ⟨100, 10, 20, 8, 5, .active⟩)], [], []⟩ ∧
    storeInvOk ⟨[], [(5, ⟨100, 10, 20, 8, 0, .active⟩)], [], []⟩ ∧
    storeInvOk ⟨[(1, ⟨10, 20, .fulfilled, [⟨5, 3, [40]⟩]⟩)],
      [(5, ⟨100, 10, 20, 5, 0, .active⟩)], [(40, .shipped)],
      [⟨5, .debit, 3, .outbound, some 1⟩]⟩ ∧
    storeInvOk ⟨[], [(5, ⟨100, 10, 20, 8, 0, .soft_deleted⟩)], [],
      [⟨5, .debit, 8, .deletion, none⟩]⟩ :=
  ⟨inventory_quantities_invariant.1 100 20 10 10 5 true 33
      ⟨[], [], [], []⟩ _ (by rfl) (by decide),
    inventory_quantities_invariant.2.1 10 [⟨5, 2, []⟩] 7 true
      ⟨[], [(5, ⟨100, 10, 20, 8, 3, .active⟩)], [], []⟩ _ (by rfl)
      (by decide) (by decide),
    inventory_quantities_invariant.2.2.1 1 10
      ⟨[(1, ⟨10, 20, .pending, [⟨5, 3, []⟩]⟩)],
        [(5, ⟨100, 10, 20, 8, 3, .active⟩)], [], []⟩ _ (by rfl)
      (by decide) (by decide),
    inventory_quantities_invariant.2.2.2.1 1 20
      ⟨[(1, ⟨10, 20, .pending, [⟨5, 3, [40]⟩]⟩)],
        [(5, ⟨100, 10, 20, 8, 3, .active⟩)], [(40, .new)], []⟩ _ (by rfl)
      (by decide),
    inventory_quantities_invariant.2.2.2.2 5 10
      ⟨[], [(5, ⟨100, 10, 20, 8, 0, .active⟩)], [], []⟩ _ (by rfl)
      (by decide)⟩

end Cargovera
